import Mathlib

/-!
Verification of the Gradio discovery / caching / tool-selection core of the
hf-mcp-server repository, as a shallow embedding in Lean 4.

The embedding mirrors the TypeScript sources:
  * `packages/app/src/server/utils/gradio-cache.ts`
  * `packages/app/src/server/utils/gradio-discovery.ts`
  * `packages/app/src/server/utils/gradio-utils.ts`
  * `packages/app/src/server/utils/gradio-result-processor.ts`
  * `packages/app/src/server/utils/tool-selection-strategy.ts`

JavaScript `Map` objects become insertion-ordered association lists, timestamps
(`Date.now()`) become explicit `Nat` parameters, and outbound HTTP calls become
explicit response oracles passed to the functions that perform them.
Asynchronous batches (`Promise.all`) are modelled by sequential left-to-right
execution, one legal interleaving of the concurrent reads/writes.
-/

namespace HfMcp

/-- Lookup in an insertion-ordered association list (JS `Map.get`). -/
def listGet {α : Type} (k : String) : List (String × α) → Option α
  | [] => none
  | (k', v) :: rest => if k' = k then some v else listGet k rest

/-- Update in an insertion-ordered association list (JS `Map.set`): replaces the
value in place when the key exists, appends otherwise. -/
def listSet {α : Type} (k : String) (v : α) : List (String × α) → List (String × α)
  | [] => [(k, v)]
  | (k', v') :: rest => if k' = k then (k, v) :: rest else (k', v') :: listSet k v rest

/-- JS truthiness for an optional string: `undefined` and `""` are falsy. -/
def jsStr : Option String → Option String
  | none => none
  | some s => if s = "" then none else some s

/-- Cache configuration defaults (`CACHE_CONFIG` in gradio-cache.ts with every
environment override unset). -/
structure CacheConfigT where
  SPACE_METADATA_TTL : Nat
  SCHEMA_TTL : Nat
  DISCOVERY_CONCURRENCY : Nat
  SPACE_INFO_TIMEOUT : Nat
  SCHEMA_TIMEOUT : Nat
deriving DecidableEq

def CACHE_CONFIG : CacheConfigT :=
  { SPACE_METADATA_TTL := 300000
    SCHEMA_TTL := 300000
    DISCOVERY_CONCURRENCY := 10
    SPACE_INFO_TIMEOUT := 5000
    SCHEMA_TIMEOUT := 7500 }

/-- Optional runtime information of a space. -/
structure SpaceRuntime where
  stage : Option String
  hardware : Option String
deriving DecidableEq

/-- `CachedSpaceMetadata` from gradio-cache.ts.  The TypeScript `_id` field is
named `idStr` here. -/
structure CachedSpaceMetadata where
  idStr : String
  name : String
  subdomain : String
  emoji : String
  «private» : Bool
  sdk : String
  runtime : Option SpaceRuntime
  etag : Option String
  fetchedAt : Nat
deriving DecidableEq

/-- A tool descriptor (the parts of the MCP SDK `Tool` type the server reads;
the JSON input schema is carried verbatim and never inspected by the code under
verification, so it is not modelled). -/
structure Tool where
  name : String
  description : String
deriving DecidableEq

/-- `CachedSchema` from gradio-cache.ts. -/
structure CachedSchema where
  tools : List Tool
  fetchedAt : Nat
deriving DecidableEq

/-- State of the `SpaceMetadataCache` singleton: the backing map plus its
statistics counters. -/
structure SpaceMetadataCacheState where
  cache : List (String × CachedSpaceMetadata)
  hits : Nat
  misses : Nat
  etagRevalidations : Nat
deriving DecidableEq

/-- State of the `SchemaCache` singleton. -/
structure SchemaCacheState where
  cache : List (String × CachedSchema)
  hits : Nat
  misses : Nat
deriving DecidableEq

def SpaceMetadataCacheState.empty : SpaceMetadataCacheState :=
  { cache := [], hits := 0, misses := 0, etagRevalidations := 0 }

def SchemaCacheState.empty : SchemaCacheState :=
  { cache := [], hits := 0, misses := 0 }

/-- `SpaceMetadataCache.get`: returns the entry if it is within TTL of its
creation time, updating the hit/miss counters.  `now` stands for `Date.now()`. -/
def SpaceMetadataCacheState.get (st : SpaceMetadataCacheState) (spaceName : String)
    (now : Nat) : Option CachedSpaceMetadata × SpaceMetadataCacheState :=
  match listGet spaceName st.cache with
  | none => (none, { st with misses := st.misses + 1 })
  | some entry =>
    let age := now - entry.fetchedAt
    if age < CACHE_CONFIG.SPACE_METADATA_TTL then
      (some entry, { st with hits := st.hits + 1 })
    else
      (none, { st with misses := st.misses + 1 })

/-- `SpaceMetadataCache.getForRevalidation`: TTL-ignoring lookup. -/
def SpaceMetadataCacheState.getForRevalidation (st : SpaceMetadataCacheState)
    (spaceName : String) : Option CachedSpaceMetadata :=
  listGet spaceName st.cache

/-- `SpaceMetadataCache.set`. -/
def SpaceMetadataCacheState.set (st : SpaceMetadataCacheState) (spaceName : String)
    (metadata : CachedSpaceMetadata) : SpaceMetadataCacheState :=
  { st with cache := listSet spaceName metadata st.cache }

/-- `SpaceMetadataCache.updateTimestamp`: after a 304, refresh `fetchedAt` of an
existing entry and count an ETag revalidation. -/
def SpaceMetadataCacheState.updateTimestamp (st : SpaceMetadataCacheState)
    (spaceName : String) (now : Nat) : SpaceMetadataCacheState :=
  match listGet spaceName st.cache with
  | none => st
  | some entry =>
    { st with
      cache := listSet spaceName { entry with fetchedAt := now } st.cache
      etagRevalidations := st.etagRevalidations + 1 }

/-- `SchemaCache.get`. -/
def SchemaCacheState.get (st : SchemaCacheState) (spaceName : String)
    (now : Nat) : Option CachedSchema × SchemaCacheState :=
  match listGet spaceName st.cache with
  | none => (none, { st with misses := st.misses + 1 })
  | some entry =>
    let age := now - entry.fetchedAt
    if age < CACHE_CONFIG.SCHEMA_TTL then
      (some entry, { st with hits := st.hits + 1 })
    else
      (none, { st with misses := st.misses + 1 })

/-- `SchemaCache.set`. -/
def SchemaCacheState.set (st : SchemaCacheState) (spaceName : String)
    (schema : CachedSchema) : SchemaCacheState :=
  { st with cache := listSet spaceName schema st.cache }

theorem listGet_listSet_self {α : Type} (k : String) (v : α) (l : List (String × α)) :
    listGet k (listSet k v l) = some v := by
  induction l with
  | nil => simp [listGet, listSet]
  | cons hd tl ih =>
    by_cases h : hd.1 = k
    · simp [listSet, h, listGet]
    · simp [listSet, h, listGet, ih]

theorem listGet_listSet_ne {α : Type} (k k' : String) (v : α) (l : List (String × α))
    (h : k ≠ k') : listGet k' (listSet k v l) = listGet k' l := by
  induction l with
  | nil => simp [listGet, listSet, h]
  | cons hd tl ih =>
    by_cases h' : hd.1 = k
    · simp [listSet, h', listGet, h]
    · simp [listSet, h', listGet, ih]

theorem listSet_length {α : Type} (k : String) (v : α) (l : List (String × α))
    (h : listGet k l ≠ none) : (listSet k v l).length = l.length := by
  induction l with
  | nil => simp [listGet] at h
  | cons hd tl ih =>
    by_cases h' : hd.1 = k
    · simp [listSet, h']
    · simp [listGet, h'] at h
      simp [listSet, h', ih h]

theorem metadata_get_cache_unchanged (st : SpaceMetadataCacheState) (name : String)
    (now : Nat) : ((st.get name now).2).cache = st.cache := by
  unfold SpaceMetadataCacheState.get
  cases h : listGet name st.cache with
  | none => simp
  | some entry =>
    simp only []
    split <;> simp

theorem schema_get_cache_unchanged (st : SchemaCacheState) (name : String)
    (now : Nat) : ((st.get name now).2).cache = st.cache := by
  unfold SchemaCacheState.get
  cases h : listGet name st.cache with
  | none => simp
  | some entry =>
    simp only []
    split <;> simp

/-- C4: TTL is measured from entry creation.  After `set` stores an entry whose
`fetchedAt` is `t₀`, a `get` at any `t ≥ t₀ + TTL` misses and a `get` at any
`t < t₀ + TTL` hits (returning the entry unchanged), for both the
space-metadata cache and the schema cache; and `get` never modifies the backing
map, so reads never move `fetchedAt` and never extend the expiration. -/
theorem C4_ttl_from_creation (stM : SpaceMetadataCacheState) (stS : SchemaCacheState)
    (name : String) (e : CachedSpaceMetadata) (s : CachedSchema) (t : Nat) :
    (e.fetchedAt + CACHE_CONFIG.SPACE_METADATA_TTL ≤ t →
      ((stM.set name e).get name t).1 = none)
    ∧ (t < e.fetchedAt + CACHE_CONFIG.SPACE_METADATA_TTL →
      ((stM.set name e).get name t).1 = some e)
    ∧ ((stM.get name t).2.cache = stM.cache)
    ∧ (s.fetchedAt + CACHE_CONFIG.SCHEMA_TTL ≤ t →
      ((stS.set name s).get name t).1 = none)
    ∧ (t < s.fetchedAt + CACHE_CONFIG.SCHEMA_TTL →
      ((stS.set name s).get name t).1 = some s)
    ∧ ((stS.get name t).2.cache = stS.cache) := by
  refine ⟨?_, ?_, metadata_get_cache_unchanged stM name t, ?_, ?_,
    schema_get_cache_unchanged stS name t⟩
  · intro h
    unfold SpaceMetadataCacheState.get SpaceMetadataCacheState.set
    rw [listGet_listSet_self]
    simp only []
    rw [if_neg]
    omega
  · intro h
    unfold SpaceMetadataCacheState.get SpaceMetadataCacheState.set
    rw [listGet_listSet_self]
    simp only []
    rw [if_pos]
    have hT : CACHE_CONFIG.SPACE_METADATA_TTL = 300000 := rfl
    omega
  · intro h
    unfold SchemaCacheState.get SchemaCacheState.set
    rw [listGet_listSet_self]
    simp only []
    rw [if_neg]
    omega
  · intro h
    unfold SchemaCacheState.get SchemaCacheState.set
    rw [listGet_listSet_self]
    simp only []
    rw [if_pos]
    have hT : CACHE_CONFIG.SCHEMA_TTL = 300000 := rfl
    omega

def c4MetaEntry : CachedSpaceMetadata :=
  { idStr := "gradio_a-x", name := "a/x", subdomain := "a-x", emoji := "e"
    «private» := false, sdk := "gradio", runtime := none, etag := none
    fetchedAt := 1000 }

def c4SchemaEntry : CachedSchema :=
  { tools := [{ name := "infer", description := "d" }], fetchedAt := 1000 }

/-- Witness for C4 at concrete inputs: entry created at 1000, read at
301000 (expired) and at 300999 (still valid). -/
theorem C4_ttl_from_creation_witness :
    ((SpaceMetadataCacheState.empty.set "a/x" c4MetaEntry).get "a/x" 301000).1 = none
    ∧ ((SpaceMetadataCacheState.empty.set "a/x" c4MetaEntry).get "a/x" 300999).1
        = some c4MetaEntry
    ∧ ((SchemaCacheState.empty.set "a/x" c4SchemaEntry).get "a/x" 301000).1 = none
    ∧ ((SchemaCacheState.empty.set "a/x" c4SchemaEntry).get "a/x" 300999).1
        = some c4SchemaEntry := by
  refine ⟨?_, ?_, ?_, ?_⟩
  · exact (C4_ttl_from_creation SpaceMetadataCacheState.empty SchemaCacheState.empty
      "a/x" c4MetaEntry c4SchemaEntry 301000).1 (by decide)
  · exact (C4_ttl_from_creation SpaceMetadataCacheState.empty SchemaCacheState.empty
      "a/x" c4MetaEntry c4SchemaEntry 300999).2.1 (by decide)
  · exact (C4_ttl_from_creation SpaceMetadataCacheState.empty SchemaCacheState.empty
      "a/x" c4MetaEntry c4SchemaEntry 301000).2.2.2.1 (by decide)
  · exact (C4_ttl_from_creation SpaceMetadataCacheState.empty SchemaCacheState.empty
      "a/x" c4MetaEntry c4SchemaEntry 300999).2.2.2.2.1 (by decide)

/-- JS `String.prototype.toLowerCase()` (ASCII case mapping, which is all the
code under verification relies on). -/
def jsToLower (s : String) : String := ⟨s.data.map Char.toLower⟩

/-- JS `String.prototype.trim()`: strip leading and trailing whitespace. -/
def jsTrim (s : String) : String :=
  ⟨((s.data.dropWhile Char.isWhitespace).reverse.dropWhile Char.isWhitespace).reverse⟩

/-- Split a character list at every occurrence of `c` (JS `split`). -/
def splitOnChar (c : Char) : List Char → List (List Char)
  | [] => [[]]
  | x :: xs =>
    let r := splitOnChar c xs
    if x = c then [] :: r
    else
      match r with
      | [] => [[x]]
      | h :: t => (x :: h) :: t

/-- JS `String.prototype.split(',')`. -/
def jsSplitComma (s : String) : List String :=
  (splitOnChar ',' s.data).map (fun l => ⟨l⟩)

/-- `ParsedGradioSpace` from gradio-utils.ts. -/
structure ParsedGradioSpace where
  name : String
deriving DecidableEq

/-- Index of the first `'/'` as in JS `String.prototype.indexOf` (`-1` when
absent). -/
def slashIdxInt (e : String) : Int :=
  match e.data.findIdx? (· = '/') with
  | some i => (i : Int)
  | none => -1

/-- `parseGradioSpaceIds` from gradio-utils.ts: split a comma-separated list,
trim, drop empties and `none` sentinels, and keep entries with exactly one
slash that has content on both sides. -/
def parseGradioSpaceIds (gradioParam : String) : List ParsedGradioSpace :=
  let trimmed := jsTrim gradioParam
  if jsToLower trimmed = "none" then []
  else
    let entries := ((jsSplitComma gradioParam).map (fun s => jsTrim s)).filter
      (fun s => s.length > 0)
    entries.filterMap (fun entry =>
      if jsToLower entry = "none" then none
      else
        let slashCount := entry.data.count '/'
        let slashIndex := slashIdxInt entry
        if slashCount = 1 ∧ 0 < slashIndex ∧ slashIndex < (entry.length : Int) - 1 then
          some { name := entry }
        else none)

/-- Specification-side validity of a space id: exactly one `'/'`, with
non-empty text on both sides. -/
def specValidSpaceId (e : String) : Prop :=
  ∃ la lb : List Char,
    e.data = la ++ '/' :: lb ∧ la ≠ [] ∧ lb ≠ [] ∧ '/' ∉ la ∧ '/' ∉ lb

theorem findIdxQ_append_first {p : Char → Bool} (xs ys : List Char) (y : Char)
    (hxs : ∀ x ∈ xs, p x = false) (hy : p y = true) :
    (xs ++ y :: ys).findIdx? p = some xs.length := by
  induction xs with
  | nil => simp [List.findIdx?_cons, hy]
  | cons a as ih =>
    have ha : p a = false := hxs a (by simp)
    have ih' := ih (fun x hx => hxs x (by simp [hx]))
    simp [List.findIdx?_cons, ha, ih']

theorem count_eq_one_split {l : List Char} (h : l.count '/' = 1) :
    ∃ la lb, l = la ++ '/' :: lb ∧ '/' ∉ la ∧ '/' ∉ lb := by
  induction l with
  | nil => simp at h
  | cons a as ih =>
    by_cases ha : a = '/'
    · subst ha
      have : as.count '/' = 0 := by
        have := h
        rw [List.count_cons_self] at this
        omega
      exact ⟨[], as, by simp, by simp, List.count_eq_zero.mp this⟩
    · have hcnt : as.count '/' = 1 := by
        have hne : ('/' : Char) ≠ a := fun hh => ha hh.symm
        rwa [List.count_cons_of_ne hne] at h
      obtain ⟨la, lb, heq, hla, hlb⟩ := ih hcnt
      refine ⟨a :: la, lb, by simp [heq], ?_, hlb⟩
      intro hmem
      rcases List.mem_cons.mp hmem with h1 | h1
      · exact ha h1.symm
      · exact hla h1

theorem code_cond_iff_specValid (e : String) :
    (e.data.count '/' = 1 ∧ 0 < slashIdxInt e ∧
      slashIdxInt e < (e.length : Int) - 1) ↔ specValidSpaceId e := by
  constructor
  · rintro ⟨hc, hpos, hlt⟩
    obtain ⟨la, lb, heq, hla, hlb⟩ := count_eq_one_split hc
    have hidx : slashIdxInt e = (la.length : Int) := by
      unfold slashIdxInt
      rw [heq, findIdxQ_append_first la lb '/'
        (fun x hx => by simp; rintro rfl; exact hla hx) (by simp)]
    have hlen : e.length = la.length + 1 + lb.length := by
      show e.data.length = _
      rw [heq]; simp; omega
    refine ⟨la, lb, heq, ?_, ?_, hla, hlb⟩
    · intro hnil
      rw [hnil] at hidx
      rw [hidx] at hpos
      norm_num at hpos
    · intro hnil
      rw [hidx, hlen, hnil] at hlt
      simp only [List.length_nil] at hlt
      push_cast at hlt
      omega
  · rintro ⟨la, lb, heq, hla, hlb, hnla, hnlb⟩
    have hidx : slashIdxInt e = (la.length : Int) := by
      unfold slashIdxInt
      rw [heq, findIdxQ_append_first la lb '/'
        (fun x hx => by simp; rintro rfl; exact hnla hx) (by simp)]
    have hlen : e.length = la.length + 1 + lb.length := by
      show e.data.length = _
      rw [heq]; simp; omega
    refine ⟨?_, ?_, ?_⟩
    · rw [heq]
      simp [List.count_append, List.count_eq_zero.mpr hnla,
        List.count_eq_zero.mpr hnlb]
    · rw [hidx]
      have : la.length ≠ 0 := fun h => hla (List.length_eq_zero.mp h)
      omega
    · rw [hidx, hlen]
      have : lb.length ≠ 0 := fun h => hlb (List.length_eq_zero.mp h)
      push_cast
      omega

instance (e : String) : Decidable (specValidSpaceId e) :=
  decidable_of_iff _ (code_cond_iff_specValid e)

theorem specValid_not_none (e : String) (h : specValidSpaceId e) :
    jsToLower e ≠ "none" := by
  obtain ⟨la, lb, heq, -, -, -, -⟩ := h
  intro hlow
  have hmem : '/' ∈ e.data := by rw [heq]; simp
  have hmem2 : Char.toLower '/' ∈ (jsToLower e).data := List.mem_map_of_mem _ hmem
  rw [hlow] at hmem2
  have h2 : Char.toLower '/' = '/' := by decide
  rw [h2] at hmem2
  exact absurd hmem2 (by decide)

/-- C8: `parseGradioSpaceIds` maps the sentinel `none` (case-insensitively,
after trimming) to the empty list; otherwise it returns, in input order,
exactly the trimmed non-empty comma-separated entries that contain exactly one
`'/'` with non-empty text on both sides. -/
theorem C8_parse_gradio_space_ids (s : String) :
    (jsToLower (jsTrim s) = "none" → parseGradioSpaceIds s = [])
    ∧ (jsToLower (jsTrim s) ≠ "none" →
        parseGradioSpaceIds s
          = (((jsSplitComma s).map (fun e => jsTrim e)).filter
              (fun e => e.length > 0)).filterMap
              (fun e => if specValidSpaceId e then some { name := e } else none)) := by
  constructor
  · intro h
    unfold parseGradioSpaceIds
    rw [if_pos h]
  · intro h
    unfold parseGradioSpaceIds
    rw [if_neg h]
    apply List.filterMap_congr
    intro e _
    by_cases hv : specValidSpaceId e
    · rw [if_pos hv, if_neg (specValid_not_none e hv),
        if_pos ((code_cond_iff_specValid e).mpr hv)]
    · rw [if_neg hv]
      by_cases hn : jsToLower e = "none"
      · rw [if_pos hn]
      · rw [if_neg hn, if_neg (fun hc => hv ((code_cond_iff_specValid e).mp hc))]

/-- Witness for C8: the sentinel `" None "` parses to `[]`, and a mixed list
keeps only the well-formed entries in order. -/
theorem C8_parse_gradio_space_ids_witness :
    parseGradioSpaceIds " None " = []
    ∧ parseGradioSpaceIds "a/x, bad, none, b/y, a//b, /x, y/" =
        [{ name := "a/x" }, { name := "b/y" }] := by
  constructor
  · exact (C8_parse_gradio_space_ids " None ").1 (by decide)
  · rw [(C8_parse_gradio_space_ids "a/x, bad, none, b/y, a//b, /x, y/").2 (by decide)]
    decide

/-- Modelled from the spec: `GRADIO_PREFIX` from shared/constants.ts, which is
not under src/; §4.4.4 fixes the prefix `gr` for public spaces. -/
def gradioPrefixStr : String := "gr"

/-- Modelled from the spec: `GRADIO_PRIVATE_PREFIX` from shared/constants.ts,
which is not under src/; §4.4.4 fixes the prefix `grp` for private spaces. -/
def gradioPrivatePrefixStr : String := "grp"

/-- Characters collapsed by the sanitizer regex `[-\s.]+`. -/
def isSanitizedSpecial (c : Char) : Bool := c = '-' || c = '.' || c.isWhitespace

/-- Replace every maximal run of special characters by one `'_'`
(`replace(/[-\s.]+/g, '_')`); `prevSpecial` tracks whether the previous
character belonged to the current run. -/
def collapseSpecials (prevSpecial : Bool) : List Char → List Char
  | [] => []
  | c :: rest =>
    if isSanitizedSpecial c then
      if prevSpecial then collapseSpecials true rest
      else '_' :: collapseSpecials true rest
    else c :: collapseSpecials false rest

/-- The tool-name sanitizer: collapse `[-\s.]+` runs to `'_'`, then lowercase. -/
def jsSanitize (s : String) : String :=
  ⟨(collapseSpecials false s.data).map Char.toLower⟩

/-- JS `s.substring(0, n)`. -/
def jsSubstringTo (s : String) (n : Nat) : String := ⟨s.data.take n⟩

/-- JS `s.slice(-k)` for an integer `k` (the code calls it with `-keepFromEnd`
where `keepFromEnd` may be zero or negative): positive `k` keeps the last `k`
characters, `k = 0` keeps the whole string, negative `k` drops `-k` characters
from the front. -/
def jsSliceNeg (s : String) (k : Int) : String :=
  if 0 < k then ⟨s.data.drop (s.data.length - k.toNat)⟩
  else ⟨s.data.drop ((-k).toNat)⟩

/-- `createGradioToolName` from gradio-utils.ts. -/
def createGradioToolName (toolName : String) (index : Nat)
    (isPrivate : Option Bool) (toolIndex : Option Nat) : String :=
  let pfx := match isPrivate with
    | some true => gradioPrivatePrefixStr
    | _ => gradioPrefixStr
  let idxStr := Nat.repr (index + 1)
  let maxNameLength : Int := 49 - pfx.length - idxStr.length - 1
  let sanitizedName := if toolName = "" then "unknown" else jsSanitize toolName
  let sanitizedName :=
    if maxNameLength < (sanitizedName.length : Int) then
      match toolIndex with
      | some ti =>
        let toolIdxPfx := Nat.repr ti ++ "_"
        let availableForName := maxNameLength - toolIdxPfx.length
        let keepFromEnd := availableForName - 20 - 1
        toolIdxPfx ++ jsSubstringTo sanitizedName 20 ++ "_"
          ++ jsSliceNeg sanitizedName keepFromEnd
      | none =>
        let keepFromEnd := maxNameLength - 20 - 1
        jsSubstringTo sanitizedName 20 ++ "_" ++ jsSliceNeg sanitizedName keepFromEnd
    else sanitizedName
  pfx ++ idxStr ++ "_" ++ sanitizedName

theorem createGradioToolName_example1 :
    createGradioToolName "flux1_schnell" 0 (some false) none = "gr1_flux1_schnell" := by
  decide

theorem createGradioToolName_example2 :
    createGradioToolName "EasyGhibli" 1 (some false) none = "gr2_easyghibli" := by
  decide

theorem createGradioToolName_example3 :
    createGradioToolName "private.model" 2 (some true) none = "grp3_private_model" := by
  decide

theorem strMk_length (l : List Char) : (String.mk l).length = l.length := rfl

theorem str_data_length (s : String) : s.data.length = s.length := rfl

theorem underscore_length : ("_" : String).length = 1 := rfl

/-- Counterexample for C9 as stated: with a 16-digit space index and an 8-digit
tool index the truncation budget `keepFromEnd` reaches 0, `slice(-0)` keeps the
whole sanitized name, and the generated name has 80 characters. -/
theorem C9_counterexample :
    ¬ ((createGradioToolName "abcdefghijklmnopqrstuvwxyzabcde" 999999999999999
        (some false) (some 10000000)).length ≤ 49) := by
  decide

/-- Length of the tool-index insert `"<ti>_"` (0 when no tool index is given). -/
def toolIdxOverhead : Option Nat → Nat
  | some ti => 1 + (Nat.repr ti).length
  | none => 0

/-- Length of the chosen prefix (`gr` or `grp`). -/
def pfxLenOf : Option Bool → Nat
  | some true => 3
  | _ => 2

theorem gr_length : gradioPrefixStr.length = 2 := rfl

theorem grp_length : gradioPrivatePrefixStr.length = 3 := rfl

/-- C9 (amended): the generated name always begins with `gr` (public) or `grp`
(private) followed by the 1-based space index and an underscore, and it has at
most 49 characters provided the prefix, the decimal space index and the decimal
tool index together keep the truncation budget positive (at most 26 characters
of combined overhead — true for every realistic index; the counterexample
needs a 16-digit space index). -/
theorem C9_tool_name_generation (toolName : String) (index : Nat)
    (isPrivate : Option Bool) (toolIndex : Option Nat)
    (h : pfxLenOf isPrivate + (Nat.repr (index + 1)).length
        + toolIdxOverhead toolIndex ≤ 26) :
    (createGradioToolName toolName index isPrivate toolIndex).length ≤ 49
    ∧ ∃ rest, createGradioToolName toolName index isPrivate toolIndex
        = (match isPrivate with
            | some true => gradioPrivatePrefixStr
            | _ => gradioPrefixStr) ++ Nat.repr (index + 1) ++ "_" ++ rest := by
  simp only [pfxLenOf, toolIdxOverhead] at h
  rcases isPrivate with _ | b
  · refine ⟨?_, ⟨_, rfl⟩⟩
    simp only [createGradioToolName]
    set san := if toolName = "" then "unknown" else jsSanitize toolName with hs
    rcases toolIndex with _ | ti
    · split
      · simp only [jsSliceNeg]
        split
        · simp only [String.length_append, jsSubstringTo, strMk_length,
            List.length_take, List.length_drop, underscore_length, str_data_length,
            gr_length] at *
          omega
        · simp only [gr_length] at *
          omega
      · simp only [String.length_append, underscore_length, gr_length] at *
        omega
    · split
      · simp only [jsSliceNeg]
        split
        · simp only [String.length_append, jsSubstringTo, strMk_length,
            List.length_take, List.length_drop, underscore_length, str_data_length,
            gr_length] at *
          omega
        · simp only [String.length_append, underscore_length, gr_length] at *
          omega
      · simp only [String.length_append, underscore_length, gr_length] at *
        omega
  · cases b
    · refine ⟨?_, ⟨_, rfl⟩⟩
      simp only [createGradioToolName]
      set san := if toolName = "" then "unknown" else jsSanitize toolName with hs
      rcases toolIndex with _ | ti
      · split
        · simp only [jsSliceNeg]
          split
          · simp only [String.length_append, jsSubstringTo, strMk_length,
              List.length_take, List.length_drop, underscore_length, str_data_length,
              gr_length] at *
            omega
          · simp only [gr_length] at *
            omega
        · simp only [String.length_append, underscore_length, gr_length] at *
          omega
      · split
        · simp only [jsSliceNeg]
          split
          · simp only [String.length_append, jsSubstringTo, strMk_length,
              List.length_take, List.length_drop, underscore_length, str_data_length,
              gr_length] at *
            omega
          · simp only [String.length_append, underscore_length, gr_length] at *
            omega
        · simp only [String.length_append, underscore_length, gr_length] at *
          omega
    · refine ⟨?_, ⟨_, rfl⟩⟩
      simp only [createGradioToolName]
      set san := if toolName = "" then "unknown" else jsSanitize toolName with hs
      rcases toolIndex with _ | ti
      · split
        · simp only [jsSliceNeg]
          split
          · simp only [String.length_append, jsSubstringTo, strMk_length,
              List.length_take, List.length_drop, underscore_length, str_data_length,
              grp_length] at *
            omega
          · simp only [grp_length] at *
            omega
        · simp only [String.length_append, underscore_length, grp_length] at *
          omega
      · split
        · simp only [jsSliceNeg]
          split
          · simp only [String.length_append, jsSubstringTo, strMk_length,
              List.length_take, List.length_drop, underscore_length, str_data_length,
              grp_length] at *
            omega
          · simp only [String.length_append, underscore_length, grp_length] at *
            omega
        · simp only [String.length_append, underscore_length, grp_length] at *
          omega

/-- Witness for C9 (amended) at a concrete tool name and index. -/
theorem C9_tool_name_generation_witness :
    (createGradioToolName "flux1_schnell" 0 (some false) none).length ≤ 49
    ∧ createGradioToolName "flux1_schnell" 0 (some false) none = "gr1_flux1_schnell" :=
  ⟨(C9_tool_name_generation "flux1_schnell" 0 (some false) none (by decide)).1,
    by decide⟩

/-- A content block of a tool result as inspected by
gradio-result-processor.ts: whether it is a (non-null) object, its `type`
field when that is a string, and its `text` field when that is a string. -/
structure ContentItem where
  isObject : Bool
  type : Option String
  text : Option String
deriving DecidableEq

/-- The part of an MCP `CallToolResult` the filter operates on. -/
structure CallToolResult where
  content : List ContentItem
  isError : Bool
deriving DecidableEq

/-- `ImageFilterOptions` from gradio-result-processor.ts. -/
structure ImageFilterOptions where
  enabled : Bool
  toolName : String
  outwardFacingName : String
deriving DecidableEq

/-- The filter predicate of `stripImageContentFromResult`: keep non-objects and
objects whose lowercased `type` is not `image`. -/
def keepItem (item : ContentItem) : Bool :=
  if !item.isObject then true
  else
    match item.type with
    | some t => !(jsToLower t = "image")
    | none => true

/-- An image block in the sense of the filter. -/
def isImageBlock (item : ContentItem) : Bool :=
  item.isObject &&
    (match item.type with
    | some t => jsToLower t = "image"
    | none => false)

/-- The placeholder inserted when filtering removes every block. -/
def imageOmittedBlock : ContentItem :=
  { isObject := true
    type := some "text"
    text := some "Image content omitted due to client configuration (no_image_content=true)." }

/-- `stripImageContentFromResult` from gradio-result-processor.ts. -/
def stripImageContentFromResult (callResult : CallToolResult)
    (opts : ImageFilterOptions) : CallToolResult :=
  if !opts.enabled then callResult
  else
    let content := callResult.content
    if content.length = 0 then callResult
    else
      let filteredContent := content.filter keepItem
      if filteredContent.length = content.length then callResult
      else
        let filteredContent :=
          if filteredContent.length = 0 then [imageOmittedBlock] else filteredContent
        { callResult with content := filteredContent }

theorem keepItem_eq_not_isImageBlock (item : ContentItem) :
    keepItem item = !isImageBlock item := by
  unfold keepItem isImageBlock
  cases hobj : item.isObject <;> cases htype : item.type <;> simp

/-- C10: with filtering enabled the returned content has no image blocks; if
the (non-empty) pre-filter content was all image blocks the returned content is
exactly the explanatory text block; with filtering disabled the result is
returned unchanged. -/
theorem C10_image_filter (r : CallToolResult) (opts : ImageFilterOptions) :
    (opts.enabled = true →
      ∀ item ∈ (stripImageContentFromResult r opts).content, isImageBlock item = false)
    ∧ (opts.enabled = true → r.content ≠ [] →
        (∀ item ∈ r.content, isImageBlock item = true) →
        (stripImageContentFromResult r opts).content = [imageOmittedBlock])
    ∧ (opts.enabled = false → stripImageContentFromResult r opts = r) := by
  refine ⟨?_, ?_, ?_⟩
  · intro hen item hmem
    unfold stripImageContentFromResult at hmem
    rw [hen] at hmem
    simp only [Bool.not_true, Bool.false_eq_true, if_false] at hmem
    by_cases hlen : r.content.length = 0
    · rw [if_pos hlen] at hmem
      rw [List.length_eq_zero] at hlen
      rw [hlen] at hmem
      simp at hmem
    · rw [if_neg hlen] at hmem
      by_cases hsame : (r.content.filter keepItem).length = r.content.length
      · rw [if_pos hsame] at hmem
        have hall : ∀ a ∈ r.content, keepItem a = true :=
          (List.filter_length_eq_length).mp hsame
        have := hall item hmem
        rw [keepItem_eq_not_isImageBlock] at this
        simpa using this
      · rw [if_neg hsame] at hmem
        by_cases hnil : (r.content.filter keepItem).length = 0
        · rw [if_pos hnil] at hmem
          simp at hmem
          rw [hmem]
          decide
        · rw [if_neg hnil] at hmem
          simp only [] at hmem
          have := List.of_mem_filter hmem
          rw [keepItem_eq_not_isImageBlock] at this
          simpa using this
  · intro hen hne hall
    unfold stripImageContentFromResult
    rw [hen]
    simp only [Bool.not_true, Bool.false_eq_true, if_false]
    have hlen : ¬ r.content.length = 0 := by
      intro h0
      exact hne (List.length_eq_zero.mp h0)
    rw [if_neg hlen]
    have hfil : r.content.filter keepItem = [] := by
      rw [List.filter_eq_nil_iff]
      intro a ha
      rw [keepItem_eq_not_isImageBlock, hall a ha]
      decide
    have hne2 : ¬ (r.content.filter keepItem).length = r.content.length := by
      rw [hfil]
      simp only [List.length_nil]
      omega
    rw [if_neg hne2, hfil]
    simp
  · intro hdis
    unfold stripImageContentFromResult
    rw [hdis]
    simp

def c10Image : ContentItem := { isObject := true, type := some "image", text := none }

def c10Text : ContentItem := { isObject := true, type := some "text", text := some "hi" }

def c10Opts : ImageFilterOptions :=
  { enabled := true, toolName := "t", outwardFacingName := "gr1_t" }

/-- Witness for C10 at concrete inputs: a mixed result keeps no image block,
an all-image result becomes the placeholder, and a disabled filter is the
identity. -/
theorem C10_image_filter_witness :
    (∀ item ∈ (stripImageContentFromResult
        { content := [c10Image, c10Text], isError := false } c10Opts).content,
      isImageBlock item = false)
    ∧ (stripImageContentFromResult
        { content := [c10Image], isError := false } c10Opts).content = [imageOmittedBlock]
    ∧ stripImageContentFromResult { content := [c10Image], isError := false }
        { c10Opts with enabled := false }
        = { content := [c10Image], isError := false } := by
  refine ⟨?_, ?_, ?_⟩
  · exact (C10_image_filter { content := [c10Image, c10Text], isError := false }
      c10Opts).1 rfl
  · exact (C10_image_filter { content := [c10Image], isError := false } c10Opts).2.1
      rfl (by decide) (by decide)
  · exact (C10_image_filter { content := [c10Image], isError := false }
      { c10Opts with enabled := false }).2.2 rfl

/-- Parsed JSON body of a 200 response from `/api/spaces/{owner}/{name}`
(fields the code reads; TypeScript `_id` is `idStr`). -/
structure SpaceInfoJson where
  idStr : Option String
  id : String
  subdomain : Option String
  «private» : Option Bool
  sdk : Option String
  runtime : Option SpaceRuntime
deriving DecidableEq

/-- Outcome of the outbound metadata fetch, as the code distinguishes them:
304, ok-with-body, non-ok status, or a thrown fetch/timeout error. -/
inductive MetadataResponse where
  | notModified
  | ok (info : SpaceInfoJson) (etagHeader : Option String)
  | httpError (status : Nat)
  | networkError
deriving DecidableEq

/-- The outbound metadata request (URL plus the two headers the code sets). -/
structure MetadataRequest where
  url : String
  authorization : Option String
  ifNoneMatch : Option String
deriving DecidableEq

/-- Request constructed by `fetchSpaceMetadata` (headers are set only for a
truthy token / ETag). -/
def metadataRequest (spaceName : String) (hfToken : Option String)
    (etag : Option String) : MetadataRequest :=
  { url := "https://huggingface.co/api/spaces/" ++ spaceName
    authorization := (jsStr hfToken).map (fun t => "Bearer " ++ t)
    ifNoneMatch := etag }

/-- `SpaceMetadataResult` from gradio-discovery.ts (error details dropped). -/
inductive SpaceMetadataResult where
  | success (metadata : CachedSpaceMetadata) (cached : Bool)
  | failure (spaceName : String)
deriving DecidableEq

def defaultEmoji : String := "🔧"

/-- `fetchSpaceMetadata` from gradio-discovery.ts.  `respond` is the HTTP
oracle; the middle component of the result records the outbound request that
was sent (`none` when the call was served from the fresh cache), so that the
conditional-request behaviour is statable. -/
def fetchSpaceMetadata (spaceName : String) (hfToken : Option String)
    (includeRuntime : Bool) (respond : MetadataRequest → MetadataResponse)
    (now : Nat) (st : SpaceMetadataCacheState) :
    SpaceMetadataResult × Option MetadataRequest × SpaceMetadataCacheState :=
  match st.get spaceName now with
  | (some cached, st1) => (.success cached true, none, st1)
  | (none, st1) =>
    let stale := st1.getForRevalidation spaceName
    let etag := jsStr (stale.bind (fun s => s.etag))
    let req := metadataRequest spaceName hfToken etag
    match respond req with
    | .notModified =>
      match stale with
      | some staleEntry =>
        (.success staleEntry true, some req, st1.updateTimestamp spaceName now)
      | none => (.failure spaceName, some req, st1)
    | .httpError _ => (.failure spaceName, some req, st1)
    | .networkError => (.failure spaceName, some req, st1)
    | .ok info etagHeader =>
      match jsStr info.subdomain with
      | none => (.failure spaceName, some req, st1)
      | some subd =>
        let metadata : CachedSpaceMetadata :=
          { idStr := (jsStr info.idStr).getD ("gradio_" ++ subd)
            name := spaceName
            subdomain := subd
            emoji := defaultEmoji
            «private» := info.«private».getD false
            sdk := (jsStr info.sdk).getD "gradio"
            runtime := info.runtime
            etag := jsStr etagHeader
            fetchedAt := now }
        if !metadata.«private» then
          (.success metadata false, some req, st1.set spaceName metadata)
        else
          (.success metadata false, some req, st1)

/-- One tool entry as returned by `parseSchemaResponse` (the input schema is
carried opaquely and not modelled). -/
structure ParsedTool where
  name : String
  description : Option String
deriving DecidableEq

/-- Outcome of the outbound schema fetch: parsed body, a body
`parseSchemaResponse` rejects (invalid format or zero tools), non-ok status, or
a thrown fetch/timeout error. -/
inductive SchemaFetchResponse where
  | ok (parsed : List ParsedTool)
  | parseError
  | httpError (status : Nat)
  | networkError
deriving DecidableEq

/-- The outbound schema request (URL plus the forwarded-token header that is
set only for private spaces with a truthy token). -/
structure SchemaRequest where
  url : String
  xHfAuthorization : Option String
deriving DecidableEq

def schemaRequest (metadata : CachedSpaceMetadata) (hfToken : Option String) :
    SchemaRequest :=
  { url := "https://" ++ metadata.subdomain ++ ".hf.space/gradio_api/mcp/schema"
    xHfAuthorization :=
      if metadata.«private» then (jsStr hfToken).map (fun t => "Bearer " ++ t)
      else none }

/-- `SchemaResult` from gradio-discovery.ts. -/
inductive SchemaResult where
  | success (spaceName : String) (schema : CachedSchema) (cached : Bool)
  | failure (spaceName : String)
deriving DecidableEq

/-- Infix test on character lists. -/
def listIsInfixOf (needle : List Char) : List Char → Bool
  | [] => decide (needle = [])
  | x :: xs => needle.isPrefixOf (x :: xs) || listIsInfixOf needle xs

/-- JS `String.prototype.includes`. -/
def jsIncludes (s sub : String) : Bool := listIsInfixOf sub.data s.data

/-- Conversion of a parsed tool to the MCP `Tool` shape
(`description || name + " tool"`). -/
def toolOfParsed (p : ParsedTool) : Tool :=
  { name := p.name
    description := (jsStr p.description).getD (p.name ++ " tool") }

/-- `fetchSchema` from gradio-discovery.ts. -/
def fetchSchema (metadata : CachedSpaceMetadata) (hfToken : Option String)
    (respond : SchemaRequest → SchemaFetchResponse) (now : Nat)
    (st : SchemaCacheState) : SchemaResult × SchemaCacheState :=
  let spaceName := metadata.name
  match st.get spaceName now with
  | (some cached, st1) => (.success spaceName cached true, st1)
  | (none, st1) =>
    let req := schemaRequest metadata hfToken
    match respond req with
    | .ok parsed =>
      let tools := (parsed.filter
        (fun p => !(jsIncludes (jsToLower p.name) "<lambda"))).map toolOfParsed
      let schema : CachedSchema := { tools := tools, fetchedAt := now }
      if !metadata.«private» then
        (.success spaceName schema false, st1.set spaceName schema)
      else
        (.success spaceName schema false, st1)
    | .parseError => (.failure spaceName, st1)
    | .httpError _ => (.failure spaceName, st1)
    | .networkError => (.failure spaceName, st1)

/-- The privacy invariant of the space-metadata cache: every stored entry is
public. -/
def metaCacheOk (st : SpaceMetadataCacheState) : Prop :=
  ∀ p ∈ st.cache, (p.2).«private» = false

theorem forall_snd_listSet {α : Type} (P : α → Prop) (k : String) (v : α)
    (l : List (String × α)) (hl : ∀ p ∈ l, P p.2) (hv : P v) :
    ∀ p ∈ listSet k v l, P p.2 := by
  induction l with
  | nil =>
    intro p hp
    simp [listSet] at hp
    subst hp
    exact hv
  | cons hd tl ih =>
    intro p hp
    by_cases h : hd.1 = k
    · simp only [listSet, if_pos h] at hp
      rcases List.mem_cons.mp hp with h1 | h1
      · rw [h1]
        exact hv
      · exact hl p (List.mem_cons_of_mem _ h1)
    · simp only [listSet, if_neg h] at hp
      rcases List.mem_cons.mp hp with h1 | h1
      · exact hl p (h1 ▸ List.mem_cons_self _ _)
      · exact ih (fun q hq => hl q (List.mem_cons_of_mem _ hq)) p h1

theorem listGet_mem {α : Type} {k : String} {v : α} {l : List (String × α)}
    (h : listGet k l = some v) : (k, v) ∈ l := by
  induction l with
  | nil => simp [listGet] at h
  | cons hd tl ih =>
    by_cases h' : hd.1 = k
    · simp only [listGet, if_pos h', Option.some.injEq] at h
      rw [← h, ← h']
      exact List.mem_cons_self _ _
    · simp only [listGet, if_neg h'] at h
      exact List.mem_cons_of_mem _ (ih h)

instance (st : SpaceMetadataCacheState) : Decidable (metaCacheOk st) :=
  inferInstanceAs (Decidable (∀ p ∈ st.cache, (p.2).«private» = false))

theorem fetchSpaceMetadata_preserves_invariant (spaceName : String)
    (hfToken : Option String) (includeRuntime : Bool)
    (respond : MetadataRequest → MetadataResponse) (now : Nat)
    (st : SpaceMetadataCacheState) (hinv : metaCacheOk st) :
    metaCacheOk
      (fetchSpaceMetadata spaceName hfToken includeRuntime respond now st).2.2 := by
  have hcache := metadata_get_cache_unchanged st spaceName now
  rcases hgq : st.get spaceName now with ⟨o, st1⟩
  rw [hgq] at hcache
  have hinv1 : ∀ p ∈ st1.cache, (p.2).«private» = false := by
    intro p hp
    refine hinv p ?_
    rw [← show ((none : Option CachedSpaceMetadata), st1).2.cache = st.cache from hcache]
    exact hp
  unfold fetchSpaceMetadata
  rw [hgq]
  cases o with
  | some cached => exact hinv1
  | none =>
    simp only []
    split
    · -- 304
      split
      · -- stale present: updateTimestamp
        rename_i staleEntry heqStale
        have heq2 : listGet spaceName st1.cache = some staleEntry := heqStale
        have hstalePub : staleEntry.«private» = false := hinv1 _ (listGet_mem heq2)
        show metaCacheOk (st1.updateTimestamp spaceName now)
        unfold SpaceMetadataCacheState.updateTimestamp
        rw [heq2]
        intro p hp
        exact forall_snd_listSet (fun mm => mm.«private» = false) _ _ _ hinv1
          hstalePub p hp
      · exact hinv1
    · -- httpError
      exact hinv1
    · -- networkError
      exact hinv1
    · -- ok
      split
      · exact hinv1
      · split
        · -- public: cached via set
          rename_i hcond
          intro p hp
          exact forall_snd_listSet (fun mm => mm.«private» = false) _ _ _ hinv1
            (by simpa using hcond) p hp
        · exact hinv1

theorem fetchSpaceMetadata_private_no_write (spaceName : String)
    (hfToken : Option String) (includeRuntime : Bool)
    (respond : MetadataRequest → MetadataResponse) (now : Nat)
    (st : SpaceMetadataCacheState) (hinv : metaCacheOk st) (m : CachedSpaceMetadata)
    (c : Bool)
    (hm : (fetchSpaceMetadata spaceName hfToken includeRuntime respond now st).1
        = .success m c)
    (hpriv : m.«private» = true) :
    ((fetchSpaceMetadata spaceName hfToken includeRuntime respond now st).2.2).cache
      = st.cache := by
  have hcache := metadata_get_cache_unchanged st spaceName now
  rcases hgq : st.get spaceName now with ⟨o, st1⟩
  rw [hgq] at hcache
  have hinv1 : ∀ p ∈ st1.cache, (p.2).«private» = false := by
    intro p hp
    refine hinv p ?_
    rw [← show (o, st1).2.cache = st.cache from hcache]
    exact hp
  unfold fetchSpaceMetadata at hm ⊢
  rw [hgq] at hm ⊢
  cases o with
  | some cached => exact hcache
  | none =>
    simp only [] at hm ⊢
    split at hm
    · -- 304
      split at hm
      · -- updateTimestamp branch: stale entry is public, contradiction
        rename_i staleEntry heqStale
        injection hm with hm1 hm2
        have heq2 : listGet spaceName st1.cache = some staleEntry := heqStale
        have hstalePub : staleEntry.«private» = false := hinv1 _ (listGet_mem heq2)
        rw [← hm1] at hpriv
        rw [hpriv] at hstalePub
        exact absurd hstalePub (by decide)
      · exact hcache
    · -- httpError
      exact hcache
    · -- networkError
      exact hcache
    · -- ok
      rename_i info etagHeader heqResp
      rcases hsub : jsStr info.subdomain with _ | subd
      · exact hcache
      · rw [hsub] at hm
        simp only [] at hm
        by_cases hcond : (!info.«private».getD false) = true
        · rw [if_pos hcond] at hm
          injection hm with hm1 hm2
          rw [← hm1] at hpriv
          have hpriv2 : info.«private».getD false = true := hpriv
          rw [hpriv2] at hcond
          exact absurd hcond (by decide)
        · simp only []
          rw [if_neg hcond]
          exact hcache

theorem fetchSchema_private_no_write (metadata : CachedSpaceMetadata)
    (hfToken : Option String) (schemaRespond : SchemaRequest → SchemaFetchResponse)
    (now : Nat) (stS : SchemaCacheState) (hpriv : metadata.«private» = true) :
    ((fetchSchema metadata hfToken schemaRespond now stS).2).cache = stS.cache := by
  have hcache := schema_get_cache_unchanged stS metadata.name now
  rcases hgq : stS.get metadata.name now with ⟨o, st1⟩
  rw [hgq] at hcache
  unfold fetchSchema
  simp only []
  rw [hgq]
  cases o with
  | some cached => exact hcache
  | none =>
    simp only []
    split
    · -- ok branch
      rw [hpriv]
      simpa using hcache
    · exact hcache
    · exact hcache
    · exact hcache

/-- C1: privacy invariant of both caches.  Whenever every entry of the
metadata cache is public, a `fetchSpaceMetadata` step preserves this; if the
fetch returned metadata with `private = true`, the metadata-cache map is left
exactly as it was (so its size cannot grow); and `fetchSchema` for a private
space leaves the schema-cache map exactly as it was. -/
theorem C1_private_never_cached (spaceName : String) (hfToken : Option String)
    (includeRuntime : Bool) (respond : MetadataRequest → MetadataResponse)
    (schemaRespond : SchemaRequest → SchemaFetchResponse) (now : Nat)
    (st : SpaceMetadataCacheState) (stS : SchemaCacheState)
    (metadata : CachedSpaceMetadata) :
    (metaCacheOk st →
      metaCacheOk
        (fetchSpaceMetadata spaceName hfToken includeRuntime respond now st).2.2)
    ∧ (metaCacheOk st →
        ∀ m c,
          (fetchSpaceMetadata spaceName hfToken includeRuntime respond now st).1
            = .success m c →
          m.«private» = true →
          ((fetchSpaceMetadata spaceName hfToken includeRuntime respond now st).2.2).cache
            = st.cache)
    ∧ (metadata.«private» = true →
        ((fetchSchema metadata hfToken schemaRespond now stS).2).cache = stS.cache) :=
  ⟨fun hinv => fetchSpaceMetadata_preserves_invariant spaceName hfToken includeRuntime
      respond now st hinv,
    fun hinv m c hm hpriv => fetchSpaceMetadata_private_no_write spaceName hfToken
      includeRuntime respond now st hinv m c hm hpriv,
    fun hpriv => fetchSchema_private_no_write metadata hfToken schemaRespond now
      stS hpriv⟩

def c1Respond : MetadataRequest → MetadataResponse := fun _ =>
  .ok { idStr := none, id := "c/z", subdomain := some "c-z", «private» := some true
        sdk := some "gradio", runtime := none } none

def c1Meta : CachedSpaceMetadata :=
  { idStr := "gradio_c-z", name := "c/z", subdomain := "c-z", emoji := defaultEmoji
    «private» := true, sdk := "gradio", runtime := none, etag := none, fetchedAt := 5 }

def c1SchemaRespond : SchemaRequest → SchemaFetchResponse := fun _ =>
  .ok [{ name := "infer", description := none }]

/-- Witness for C1: fetching the private space `c/z` into empty caches leaves
both cache maps empty and preserves the invariant. -/
theorem C1_private_never_cached_witness :
    metaCacheOk
      (fetchSpaceMetadata "c/z" none false c1Respond 5 SpaceMetadataCacheState.empty).2.2
    ∧ ((fetchSpaceMetadata "c/z" none false c1Respond 5
        SpaceMetadataCacheState.empty).2.2).cache = []
    ∧ ((fetchSchema c1Meta none c1SchemaRespond 5 SchemaCacheState.empty).2).cache
        = [] := by
  refine ⟨?_, ?_, ?_⟩
  · exact (C1_private_never_cached "c/z" none false c1Respond c1SchemaRespond 5
      SpaceMetadataCacheState.empty SchemaCacheState.empty c1Meta).1 (by decide)
  · exact (C1_private_never_cached "c/z" none false c1Respond c1SchemaRespond 5
      SpaceMetadataCacheState.empty SchemaCacheState.empty c1Meta).2.1 (by decide)
      c1Meta false (by decide) (by decide)
  · exact (C1_private_never_cached "c/z" none false c1Respond c1SchemaRespond 5
      SpaceMetadataCacheState.empty SchemaCacheState.empty c1Meta).2.2 (by decide)

theorem jsStr_some_of_ne (s : String) (h : s ≠ "") : jsStr (some s) = some s := by
  simp [jsStr, h]

/-- C5: ETag revalidation round-trip.  With an expired entry for `spaceName`
holding ETag `X` in the cache, the next `fetchSpaceMetadata` sends a request
with `If-None-Match: X`; when that request is answered `304 Not Modified`, the
fetch returns the stale entry, the cache map keeps its size, the entry is
replaced by itself with only `fetchedAt` moved forward (strictly — the entry
was expired), and `etagRevalidations` increments by exactly one. -/
theorem C5_etag_revalidation (spaceName : String) (hfToken : Option String)
    (includeRuntime : Bool) (respond : MetadataRequest → MetadataResponse)
    (now : Nat) (st : SpaceMetadataCacheState) (e : CachedSpaceMetadata) (X : String)
    (hentry : listGet spaceName st.cache = some e)
    (hetag : e.etag = some X) (hX : X ≠ "")
    (hexpired : ¬ (now - e.fetchedAt < CACHE_CONFIG.SPACE_METADATA_TTL))
    (h304 : respond (metadataRequest spaceName hfToken (some X)) = .notModified) :
    (fetchSpaceMetadata spaceName hfToken includeRuntime respond now st).2.1
        = some (metadataRequest spaceName hfToken (some X))
    ∧ (fetchSpaceMetadata spaceName hfToken includeRuntime respond now st).1
        = .success e true
    ∧ ((fetchSpaceMetadata spaceName hfToken includeRuntime respond now
        st).2.2).cache.length = st.cache.length
    ∧ listGet spaceName
        ((fetchSpaceMetadata spaceName hfToken includeRuntime respond now st).2.2).cache
        = some { e with fetchedAt := now }
    ∧ e.fetchedAt < now
    ∧ ((fetchSpaceMetadata spaceName hfToken includeRuntime respond now
        st).2.2).etagRevalidations = st.etagRevalidations + 1 := by
  have hTTL : CACHE_CONFIG.SPACE_METADATA_TTL = 300000 := rfl
  have hlt : e.fetchedAt < now := by omega
  have hget : st.get spaceName now = (none, { st with misses := st.misses + 1 }) := by
    unfold SpaceMetadataCacheState.get
    rw [hentry]
    simp only []
    rw [if_neg hexpired]
  have hstale : SpaceMetadataCacheState.getForRevalidation
      { st with misses := st.misses + 1 } spaceName = some e := hentry
  have hupd : SpaceMetadataCacheState.updateTimestamp
      { st with misses := st.misses + 1 } spaceName now
      = { cache := listSet spaceName { e with fetchedAt := now } st.cache,
          hits := st.hits, misses := st.misses + 1,
          etagRevalidations := st.etagRevalidations + 1 } := by
    unfold SpaceMetadataCacheState.updateTimestamp
    rw [show listGet spaceName
      ({ st with misses := st.misses + 1 } : SpaceMetadataCacheState).cache
      = some e from hentry]
  have hfetch : fetchSpaceMetadata spaceName hfToken includeRuntime respond now st
      = (.success e true, some (metadataRequest spaceName hfToken (some X)),
        SpaceMetadataCacheState.updateTimestamp { st with misses := st.misses + 1 }
          spaceName now) := by
    unfold fetchSpaceMetadata
    rw [hget]
    simp only []
    rw [hstale]
    simp only [Option.bind, hetag, jsStr_some_of_ne X hX]
    rw [h304]
  rw [hfetch, hupd]
  refine ⟨rfl, rfl, ?_, ?_, hlt, rfl⟩
  · exact listSet_length spaceName _ st.cache (by rw [hentry]; simp)
  · exact listGet_listSet_self spaceName _ st.cache

def c5Entry : CachedSpaceMetadata :=
  { idStr := "gradio_a-x", name := "a/x", subdomain := "a-x", emoji := defaultEmoji
    «private» := false, sdk := "gradio", runtime := none, etag := some "W1"
    fetchedAt := 0 }

def c5State : SpaceMetadataCacheState :=
  { cache := [("a/x", c5Entry)], hits := 0, misses := 0, etagRevalidations := 0 }

def c5Respond : MetadataRequest → MetadataResponse := fun _ => .notModified

/-- Witness for C5: the expired entry for `a/x` with ETag `W1` is revalidated
at time 300000. -/
theorem C5_etag_revalidation_witness :
    (fetchSpaceMetadata "a/x" none false c5Respond 300000 c5State).2.1
        = some (metadataRequest "a/x" none (some "W1"))
    ∧ (fetchSpaceMetadata "a/x" none false c5Respond 300000 c5State).1
        = .success c5Entry true
    ∧ ((fetchSpaceMetadata "a/x" none false c5Respond 300000
        c5State).2.2).cache.length = c5State.cache.length
    ∧ listGet "a/x"
        ((fetchSpaceMetadata "a/x" none false c5Respond 300000 c5State).2.2).cache
        = some { c5Entry with fetchedAt := 300000 }
    ∧ c5Entry.fetchedAt < 300000
    ∧ ((fetchSpaceMetadata "a/x" none false c5Respond 300000
        c5State).2.2).etagRevalidations = c5State.etagRevalidations + 1 :=
  C5_etag_revalidation "a/x" none false c5Respond 300000 c5State c5Entry "W1"
    (by decide) (by decide) (by decide) (by decide) (by decide)

/-- Batching loop of `fetchSpaceMetadataWithCache` (`for i += concurrency`):
structural-recursion version driven by a fuel counter (one element is consumed
per step, so `l.length` fuel suffices). -/
def chunksFuel {α : Type} (c : Nat) : Nat → List α → List (List α)
  | _, [] => []
  | 0, x :: xs => [x :: xs]
  | fuel + 1, x :: xs => (x :: xs.take (c - 1)) :: chunksFuel c fuel (xs.drop (c - 1))

/-- Partition a list into batches of size `c` (the last may be shorter). -/
def chunks {α : Type} (c : Nat) (l : List α) : List (List α) :=
  chunksFuel c l.length l

/-- `GetGradioSpacesOptions` (the `timeout` override is folded into the
response oracle and not modelled separately). -/
structure GetGradioSpacesOptions where
  skipSchemas : Bool
  includeRuntime : Bool
deriving DecidableEq

/-- `GradioSpaceInfo` from gradio-discovery.ts (`_id` is `idStr`). -/
structure GradioSpaceInfo where
  idStr : String
  name : String
  subdomain : String
  emoji : String
  «private» : Bool
  sdk : String
  tools : List Tool
  runtime : Option SpaceRuntime
  cached : Bool
deriving DecidableEq

/-- Handling of one space inside a metadata batch: successful results are
entered into the results map under `metadata.name`. -/
def metadataPhaseStep (hfToken : Option String) (includeRuntime : Bool)
    (respond : MetadataRequest → MetadataResponse) (now : Nat)
    (acc : List (String × CachedSpaceMetadata) × SpaceMetadataCacheState)
    (spaceName : String) :
    List (String × CachedSpaceMetadata) × SpaceMetadataCacheState :=
  match fetchSpaceMetadata spaceName hfToken includeRuntime respond now acc.2 with
  | (.success m _, _, st') => (listSet m.name m acc.1, st')
  | (.failure _, _, st') => (acc.1, st')

/-- `fetchSpaceMetadataWithCache` from gradio-discovery.ts: process the names
in batches of `DISCOVERY_CONCURRENCY`, collecting successes into a map. -/
def fetchSpaceMetadataWithCache (spaceNames : List String) (hfToken : Option String)
    (includeRuntime : Bool) (respond : MetadataRequest → MetadataResponse)
    (now : Nat) (st : SpaceMetadataCacheState) :
    List (String × CachedSpaceMetadata) × SpaceMetadataCacheState :=
  let batches := chunks CACHE_CONFIG.DISCOVERY_CONCURRENCY spaceNames
  batches.foldl
    (fun acc batch =>
      batch.foldl (metadataPhaseStep hfToken includeRuntime respond now) acc)
    ([], st)

/-- Handling of one space in the schema phase. -/
def schemaPhaseStep (hfToken : Option String)
    (schemaRespond : SchemaRequest → SchemaFetchResponse) (now : Nat)
    (acc : List (String × CachedSchema) × SchemaCacheState)
    (metadata : CachedSpaceMetadata) :
    List (String × CachedSchema) × SchemaCacheState :=
  match fetchSchema metadata hfToken schemaRespond now acc.2 with
  | (.success sn sch _, st') => (listSet sn sch acc.1, st')
  | (.failure _, st') => (acc.1, st')

/-- `fetchSchemasWithCache` from gradio-discovery.ts (all in parallel; no
batching). -/
def fetchSchemasWithCache (metadataList : List CachedSpaceMetadata)
    (hfToken : Option String) (schemaRespond : SchemaRequest → SchemaFetchResponse)
    (now : Nat) (st : SchemaCacheState) :
    List (String × CachedSchema) × SchemaCacheState :=
  if metadataList.length = 0 then ([], st)
  else metadataList.foldl (schemaPhaseStep hfToken schemaRespond now) ([], st)

/-- `combineMetadataAndSchemas` from gradio-discovery.ts: iterate the full
metadata map; when schemas are required a space without one is skipped. -/
def combineMetadataAndSchemas (metadataMap : List (String × CachedSpaceMetadata))
    (schemaMap : List (String × CachedSchema)) (skipSchemas : Bool) :
    List GradioSpaceInfo :=
  metadataMap.filterMap (fun p =>
    let schema := listGet p.1 schemaMap
    if ¬skipSchemas ∧ schema = none then none
    else
      some { idStr := p.2.idStr, name := p.2.name, subdomain := p.2.subdomain
             emoji := p.2.emoji, «private» := p.2.«private», sdk := p.2.sdk
             tools := (schema.map (fun s => s.tools)).getD []
             runtime := p.2.runtime, cached := false })

/-- `getGradioSpaces` from gradio-discovery.ts: the main discovery entry
point.  Metadata phase, filter to Gradio spaces, schema phase (unless
skipped), combine. -/
def getGradioSpaces (spaceNames : List String) (hfToken : Option String)
    (options : GetGradioSpacesOptions)
    (respond : MetadataRequest → MetadataResponse)
    (schemaRespond : SchemaRequest → SchemaFetchResponse) (now : Nat)
    (stM : SpaceMetadataCacheState) (stS : SchemaCacheState) :
    List GradioSpaceInfo × SpaceMetadataCacheState × SchemaCacheState :=
  if spaceNames.length = 0 then ([], stM, stS)
  else
    let mres := fetchSpaceMetadataWithCache spaceNames hfToken
      options.includeRuntime respond now stM
    let metadataMap := mres.1
    let gradioMetadata := (metadataMap.map (fun p => p.2)).filter
      (fun m => m.sdk == "gradio" && m.subdomain != "")
    let sres :=
      if !options.skipSchemas && decide (0 < gradioMetadata.length) then
        fetchSchemasWithCache gradioMetadata hfToken schemaRespond now stS
      else ([], stS)
    let results := combineMetadataAndSchemas metadataMap sres.1 options.skipSchemas
    (results, mres.2, sres.2)

theorem foldl_preserves_mem {β γ : Type} (step : γ → β → γ) (Q : γ → Prop) :
    ∀ (l : List β) (acc : γ), (∀ a b, b ∈ l → Q a → Q (step a b)) → Q acc →
      Q (l.foldl step acc) := by
  intro l
  induction l with
  | nil => intro acc _ hq; exact hq
  | cons x xs ih =>
    intro acc hstep hq
    simp only [List.foldl_cons]
    exact ih (step acc x) (fun a b hb ha => hstep a b (List.mem_cons_of_mem _ hb) ha)
      (hstep acc x (List.mem_cons_self _ _) hq)

theorem forall_mem_listSet {α : Type} (P : String × α → Prop) (k : String) (v : α)
    (l : List (String × α)) (hl : ∀ p ∈ l, P p) (hv : P (k, v)) :
    ∀ p ∈ listSet k v l, P p := by
  induction l with
  | nil =>
    intro p hp
    simp [listSet] at hp
    subst hp
    exact hv
  | cons hd tl ih =>
    intro p hp
    by_cases h : hd.1 = k
    · simp only [listSet, if_pos h] at hp
      rcases List.mem_cons.mp hp with h1 | h1
      · rw [h1]; exact hv
      · exact hl p (List.mem_cons_of_mem _ h1)
    · simp only [listSet, if_neg h] at hp
      rcases List.mem_cons.mp hp with h1 | h1
      · exact hl p (h1 ▸ List.mem_cons_self _ _)
      · exact ih (fun q hq => hl q (List.mem_cons_of_mem _ hq)) p h1

theorem mem_keys_listSet {α : Type} (a k : String) (v : α) (l : List (String × α))
    (h : a ∈ (listSet k v l).map Prod.fst) : a ∈ l.map Prod.fst ∨ a = k := by
  induction l with
  | nil =>
    simp [listSet] at h
    exact Or.inr h
  | cons hd tl ih =>
    by_cases h' : hd.1 = k
    · simp only [listSet, if_pos h', List.map_cons, List.mem_cons] at h
      rcases h with h1 | h1
      · exact Or.inr h1
      · exact Or.inl (by rw [List.map_cons]; exact List.mem_cons_of_mem _ h1)
    · simp only [listSet, if_neg h', List.map_cons, List.mem_cons] at h
      rcases h with h1 | h1
      · exact Or.inl (by rw [List.map_cons, h1]; exact List.mem_cons_self _ _)
      · rcases ih h1 with h2 | h2
        · exact Or.inl (by rw [List.map_cons]; exact List.mem_cons_of_mem _ h2)
        · exact Or.inr h2

theorem listSet_keys_nodup {α : Type} (k : String) (v : α) (l : List (String × α))
    (h : (l.map Prod.fst).Nodup) : ((listSet k v l).map Prod.fst).Nodup := by
  induction l with
  | nil => simp [listSet]
  | cons hd tl ih =>
    by_cases h' : hd.1 = k
    · simp only [listSet, if_pos h']
      simp only [List.map_cons] at h ⊢
      rw [← h']
      exact h
    · simp only [listSet, if_neg h', List.map_cons]
      simp only [List.map_cons, List.nodup_cons] at h
      refine List.Nodup.cons ?_ (ih h.2)
      intro hmem
      rcases mem_keys_listSet _ _ _ _ hmem with h1 | h1
      · exact h.1 h1
      · exact h' h1

theorem nodup_keys_unique {α : Type} :
    ∀ {l : List (String × α)}, (l.map Prod.fst).Nodup →
      ∀ {p q : String × α}, p ∈ l → q ∈ l → p.1 = q.1 → p = q := by
  intro l
  induction l with
  | nil => intro _ p q hp; simp at hp
  | cons hd tl ih =>
    intro h p q hp hq hk
    simp only [List.map_cons, List.nodup_cons] at h
    rcases List.mem_cons.mp hp with h1 | h1 <;> rcases List.mem_cons.mp hq with h2 | h2
    · rw [h1, h2]
    · exfalso
      apply h.1
      rw [← h1, hk]
      exact List.mem_map_of_mem Prod.fst h2
    · exfalso
      apply h.1
      rw [← h2, ← hk]
      exact List.mem_map_of_mem Prod.fst h1
    · exact ih h.2 h1 h2 hk

theorem fetchSchema_success_name (metadata : CachedSpaceMetadata)
    (hfToken : Option String) (schemaRespond : SchemaRequest → SchemaFetchResponse)
    (now : Nat) (st : SchemaCacheState) {sn : String} {sch : CachedSchema} {c : Bool}
    (h : (fetchSchema metadata hfToken schemaRespond now st).1 = .success sn sch c) :
    sn = metadata.name := by
  unfold fetchSchema at h
  simp only [] at h
  rcases hg : st.get metadata.name now with ⟨o, st1⟩
  rw [hg] at h
  cases o with
  | some cached =>
    simp only [] at h
    injection h with h1 h2 h3
    exact h1.symm
  | none =>
    simp only [] at h
    split at h
    · split at h
      · injection h with h1 h2 h3
        exact h1.symm
      · injection h with h1 h2 h3
        exact h1.symm
    · exact absurd h (by simp)
    · exact absurd h (by simp)
    · exact absurd h (by simp)

def c7Respond : MetadataRequest → MetadataResponse := fun _ =>
  .ok { idStr := none, id := "a/x", subdomain := some "x", «private» := some false
        sdk := some "static", runtime := none } none

def c7SchemaRespond : SchemaRequest → SchemaFetchResponse := fun _ => .networkError

/-- Counterexample for C7 as stated: with `skipSchemas = true`,
`combineMetadataAndSchemas` iterates the unfiltered metadata map, so a
successfully fetched space whose sdk is `static` appears in the result. -/
theorem C7_counterexample :
    ¬ (∀ r ∈ (getGradioSpaces ["a/x"] none
        { skipSchemas := true, includeRuntime := false } c7Respond c7SchemaRespond 0
        SpaceMetadataCacheState.empty SchemaCacheState.empty).1,
      r.sdk = "gradio" ∧ r.subdomain ≠ "") := by
  decide

/-- C7 (amended): when schemas are required (`skipSchemas = false`), every
record returned by `getGradioSpaces` has `sdk = "gradio"` and a non-empty
subdomain (a record needs a schema, schemas are fetched only for the filtered
Gradio metadata, and map keys are unique and equal to the entry's name); with
`skipSchemas = true` the counterexample shows non-Gradio spaces pass through. -/
theorem C7_discovery_filter (spaceNames : List String) (hfToken : Option String)
    (options : GetGradioSpacesOptions)
    (respond : MetadataRequest → MetadataResponse)
    (schemaRespond : SchemaRequest → SchemaFetchResponse) (now : Nat)
    (stM : SpaceMetadataCacheState) (stS : SchemaCacheState)
    (hskip : options.skipSchemas = false) :
    ∀ r ∈ (getGradioSpaces spaceNames hfToken options respond schemaRespond now
        stM stS).1,
      r.sdk = "gradio" ∧ r.subdomain ≠ "" := by
  intro r hr
  unfold getGradioSpaces at hr
  by_cases hempty : spaceNames.length = 0
  · rw [if_pos hempty] at hr
    simp at hr
  · rw [if_neg hempty] at hr
    simp only [] at hr
    rw [hskip] at hr
    set mm := (fetchSpaceMetadataWithCache spaceNames hfToken
      options.includeRuntime respond now stM).1 with hmmdef
    set gm := (mm.map (fun p => p.2)).filter
      (fun m => m.sdk == "gradio" && m.subdomain != "") with hgmdef
    set sm := (if !false && decide (0 < gm.length) then
        fetchSchemasWithCache gm hfToken schemaRespond now stS
      else ([], stS)).1 with hsmdef
    -- map invariants on mm
    have hQmm : (∀ p ∈ mm, p.1 = p.2.name) ∧ ((mm.map Prod.fst).Nodup) := by
      rw [hmmdef]
      unfold fetchSpaceMetadataWithCache
      simp only []
      have base :
          (∀ p ∈ ([] : List (String × CachedSpaceMetadata)), p.1 = p.2.name)
          ∧ (([] : List (String × CachedSpaceMetadata)).map Prod.fst).Nodup := by
        constructor
        · intro p hp; simp at hp
        · simp
      have hstep : ∀ (acc : List (String × CachedSpaceMetadata) × SpaceMetadataCacheState)
          (n : String),
          ((∀ p ∈ acc.1, p.1 = p.2.name) ∧ ((acc.1.map Prod.fst).Nodup)) →
          ((∀ p ∈ (metadataPhaseStep hfToken options.includeRuntime respond now acc n).1,
              p.1 = p.2.name)
          ∧ (((metadataPhaseStep hfToken options.includeRuntime respond now
              acc n).1.map Prod.fst).Nodup)) := by
        intro acc n hq
        unfold metadataPhaseStep
        rcases hfetch : fetchSpaceMetadata n hfToken options.includeRuntime respond
          now acc.2 with ⟨res, rq, st'⟩
        cases res with
        | success m c =>
          simp only []
          exact ⟨forall_mem_listSet
              (fun (p : String × CachedSpaceMetadata) => p.1 = p.2.name) _ _ _ hq.1 rfl,
            listSet_keys_nodup _ _ _ hq.2⟩
        | failure s => exact hq
      refine foldl_preserves_mem
        (fun (acc : List (String × CachedSpaceMetadata) × SpaceMetadataCacheState)
          (batch : List String) =>
          batch.foldl (metadataPhaseStep hfToken options.includeRuntime respond now) acc)
        (fun (acc : List (String × CachedSpaceMetadata) × SpaceMetadataCacheState) =>
          (∀ p ∈ acc.1, p.1 = p.2.name) ∧ ((acc.1.map Prod.fst).Nodup))
        _ _ ?_ base
      intro a batch _ hq
      exact foldl_preserves_mem
        (metadataPhaseStep hfToken options.includeRuntime respond now)
        (fun (acc : List (String × CachedSpaceMetadata) × SpaceMetadataCacheState) =>
          (∀ p ∈ acc.1, p.1 = p.2.name) ∧ ((acc.1.map Prod.fst).Nodup))
        batch a (fun a' n _ hq' => hstep a' n hq') hq
    -- schema-map keys come from gm
    have hsm : ∀ q ∈ sm, ∃ m2, m2 ∈ gm ∧ m2.name = q.1 := by
      rw [hsmdef]
      split
      · unfold fetchSchemasWithCache
        split
        · intro q hq; simp at hq
        · have hstep : ∀ (acc : List (String × CachedSchema) × SchemaCacheState)
              (b : CachedSpaceMetadata), b ∈ gm →
              (∀ q ∈ acc.1, ∃ m2, m2 ∈ gm ∧ m2.name = q.1) →
              (∀ q ∈ (schemaPhaseStep hfToken schemaRespond now acc b).1,
                ∃ m2, m2 ∈ gm ∧ m2.name = q.1) := by
            intro acc b hb hq
            unfold schemaPhaseStep
            rcases hfetch : fetchSchema b hfToken schemaRespond now acc.2
              with ⟨res, st'⟩
            cases res with
            | success sn sch c =>
              simp only []
              have hname : sn = b.name :=
                @fetchSchema_success_name b hfToken schemaRespond now acc.2 sn sch c
                  (by rw [hfetch])
              refine forall_mem_listSet
                (fun (q : String × CachedSchema) => ∃ m2, m2 ∈ gm ∧ m2.name = q.1)
                _ _ _ hq ?_
              exact ⟨b, hb, hname.symm⟩
            | failure s => exact hq
          refine foldl_preserves_mem (schemaPhaseStep hfToken schemaRespond now)
            (fun acc => ∀ q ∈ acc.1, ∃ m2, m2 ∈ gm ∧ m2.name = q.1) _ _ hstep ?_
          intro q hq; simp at hq
      · intro q hq; simp at hq
    -- dissect the combine membership
    unfold combineMetadataAndSchemas at hr
    rw [List.mem_filterMap] at hr
    obtain ⟨p, hpmem, hpf⟩ := hr
    simp only [] at hpf
    by_cases hcs : listGet p.1 sm = none
    · rw [if_pos (by exact ⟨by simp, hcs⟩)] at hpf
      exact absurd hpf (by simp)
    · rw [if_neg (by intro hcontra; exact hcs hcontra.2)] at hpf
      obtain ⟨s, hs⟩ := Option.ne_none_iff_exists'.mp hcs
      have hqmem := listGet_mem hs
      obtain ⟨m2, hm2gm, hm2name⟩ := hsm _ hqmem
      have hm2 := List.mem_filter.mp (hgmdef ▸ hm2gm)
      obtain ⟨q2, hq2mem, hq2eq⟩ := List.mem_map.mp hm2.1
      have hq2key : q2.1 = p.1 := by
        rw [hQmm.1 q2 hq2mem, hq2eq, hm2name]
      have hq2p : q2 = p := nodup_keys_unique hQmm.2 hq2mem hpmem hq2key
      have hpred : (p.2.sdk == "gradio" && p.2.subdomain != "") = true := by
        have hq2v : p.2 = m2 := by
          rw [← hq2p]
          exact hq2eq
        rw [hq2v]
        exact hm2.2
      simp only [Bool.and_eq_true, beq_iff_eq, bne_iff_ne, ne_eq] at hpred
      rw [← Option.some.inj hpf]
      exact ⟨hpred.1, hpred.2⟩

def c7wRespond : MetadataRequest → MetadataResponse := fun _ =>
  .ok { idStr := none, id := "a/x", subdomain := some "x", «private» := some false
        sdk := some "gradio", runtime := none } none

def c7wSchemaRespond : SchemaRequest → SchemaFetchResponse := fun _ =>
  .ok [{ name := "infer", description := none }]

def c7wRecord : GradioSpaceInfo :=
  { idStr := "gradio_x", name := "a/x", subdomain := "x", emoji := defaultEmoji
    «private» := false, sdk := "gradio"
    tools := [{ name := "infer", description := "infer tool" }]
    runtime := none, cached := false }

/-- Witness for C7 (amended) on a concrete schema-bearing discovery. -/
theorem C7_discovery_filter_witness :
    c7wRecord ∈ (getGradioSpaces ["a/x"] none
        { skipSchemas := false, includeRuntime := false } c7wRespond c7wSchemaRespond 0
        SpaceMetadataCacheState.empty SchemaCacheState.empty).1
    ∧ c7wRecord.sdk = "gradio" ∧ c7wRecord.subdomain ≠ "" := by
  have hmem : c7wRecord ∈ (getGradioSpaces ["a/x"] none
      { skipSchemas := false, includeRuntime := false } c7wRespond c7wSchemaRespond 0
      SpaceMetadataCacheState.empty SchemaCacheState.empty).1 := by decide
  exact ⟨hmem, C7_discovery_filter ["a/x"] none
    { skipSchemas := false, includeRuntime := false } c7wRespond c7wSchemaRespond 0
    SpaceMetadataCacheState.empty SchemaCacheState.empty rfl c7wRecord hmem⟩

/-- The outcome a metadata fetch for `n` would have against empty caches — the
per-space verdict used to state failure isolation. -/
def metaOutcome (hfToken : Option String) (includeRuntime : Bool)
    (respond : MetadataRequest → MetadataResponse) (now : Nat) (n : String) :
    Option CachedSpaceMetadata :=
  match (fetchSpaceMetadata n hfToken includeRuntime respond now
      SpaceMetadataCacheState.empty).1 with
  | .success m _ => some m
  | .failure _ => none

/-- The outcome a schema fetch for `m` would have against an empty cache. -/
def schemaOutcome (hfToken : Option String)
    (schemaRespond : SchemaRequest → SchemaFetchResponse) (now : Nat)
    (m : CachedSpaceMetadata) : Option CachedSchema :=
  match (fetchSchema m hfToken schemaRespond now SchemaCacheState.empty).1 with
  | .success _ sch _ => some sch
  | .failure _ => none

/-- A space succeeds end-to-end: its metadata fetch succeeds, the metadata is a
Gradio space with a subdomain, and its schema fetch succeeds. -/
def spaceSucceeds (hfToken : Option String)
    (respond : MetadataRequest → MetadataResponse)
    (schemaRespond : SchemaRequest → SchemaFetchResponse) (now : Nat)
    (n : String) : Bool :=
  match metaOutcome hfToken false respond now n with
  | some m => m.sdk == "gradio" && m.subdomain != ""
      && (schemaOutcome hfToken schemaRespond now m).isSome
  | none => false

theorem jsStr_none : jsStr none = none := rfl

theorem fetchSpaceMetadata_of_miss (n : String) (hfToken : Option String)
    (includeRuntime : Bool) (respond : MetadataRequest → MetadataResponse)
    (now : Nat) (st : SpaceMetadataCacheState)
    (hmiss : listGet n st.cache = none) :
    (fetchSpaceMetadata n hfToken includeRuntime respond now st).1
      = (fetchSpaceMetadata n hfToken includeRuntime respond now
          SpaceMetadataCacheState.empty).1
    ∧ ∀ k, k ≠ n →
        listGet k ((fetchSpaceMetadata n hfToken includeRuntime respond now
          st).2.2).cache = listGet k st.cache := by
  have hget : st.get n now = (none, { st with misses := st.misses + 1 }) := by
    unfold SpaceMetadataCacheState.get
    rw [hmiss]
  have hgetE : SpaceMetadataCacheState.empty.get n now
      = (none, { SpaceMetadataCacheState.empty with misses := 1 }) := rfl
  have hstale : SpaceMetadataCacheState.getForRevalidation
      { st with misses := st.misses + 1 } n = none := hmiss
  have hstaleE : SpaceMetadataCacheState.getForRevalidation
      { SpaceMetadataCacheState.empty with misses := 1 } n = none := rfl
  unfold fetchSpaceMetadata
  rw [hget, hgetE]
  simp only []
  rw [hstale, hstaleE]
  simp only [Option.none_bind, jsStr_none]
  set R := respond (metadataRequest n hfToken none) with hRdef
  cases R with
  | notModified => exact ⟨rfl, fun k _ => rfl⟩
  | ok info etagH =>
    simp only []
    cases hS : jsStr info.subdomain with
    | none => exact ⟨rfl, fun k _ => rfl⟩
    | some subd =>
      simp only []
      by_cases hcond : (!info.«private».getD false) = true
      · rw [if_pos hcond, if_pos hcond]
        refine ⟨rfl, fun k hk => ?_⟩
        exact listGet_listSet_ne n k _ st.cache (fun h => hk h.symm)
      · rw [if_neg hcond, if_neg hcond]
        exact ⟨rfl, fun k _ => rfl⟩
  | httpError status => exact ⟨rfl, fun k _ => rfl⟩
  | networkError => exact ⟨rfl, fun k _ => rfl⟩

theorem fetchSchema_of_miss (metadata : CachedSpaceMetadata)
    (hfToken : Option String) (schemaRespond : SchemaRequest → SchemaFetchResponse)
    (now : Nat) (st : SchemaCacheState)
    (hmiss : listGet metadata.name st.cache = none) :
    (fetchSchema metadata hfToken schemaRespond now st).1
      = (fetchSchema metadata hfToken schemaRespond now SchemaCacheState.empty).1
    ∧ ∀ k, k ≠ metadata.name →
        listGet k ((fetchSchema metadata hfToken schemaRespond now st).2).cache
          = listGet k st.cache := by
  have hget : st.get metadata.name now
      = (none, { st with misses := st.misses + 1 }) := by
    unfold SchemaCacheState.get
    rw [hmiss]
  have hgetE : SchemaCacheState.empty.get metadata.name now
      = (none, { SchemaCacheState.empty with misses := 1 }) := rfl
  unfold fetchSchema
  simp only []
  rw [hget, hgetE]
  simp only []
  set R := schemaRespond (schemaRequest metadata hfToken) with hRdef
  cases R with
  | ok parsed =>
    simp only []
    by_cases hcond : (!metadata.«private») = true
    · rw [if_pos hcond, if_pos hcond]
      refine ⟨rfl, fun k hk => ?_⟩
      exact listGet_listSet_ne metadata.name k _ st.cache (fun h => hk h.symm)
    · rw [if_neg hcond, if_neg hcond]
      exact ⟨rfl, fun k _ => rfl⟩
  | parseError => exact ⟨rfl, fun k _ => rfl⟩
  | httpError status => exact ⟨rfl, fun k _ => rfl⟩
  | networkError => exact ⟨rfl, fun k _ => rfl⟩

theorem metaOutcome_name (hfToken : Option String) (includeRuntime : Bool)
    (respond : MetadataRequest → MetadataResponse) (now : Nat) (n : String)
    (m : CachedSpaceMetadata)
    (h : metaOutcome hfToken includeRuntime respond now n = some m) :
    m.name = n := by
  unfold metaOutcome at h
  unfold fetchSpaceMetadata at h
  rw [show SpaceMetadataCacheState.empty.get n now
    = (none, { SpaceMetadataCacheState.empty with misses := 1 }) from rfl] at h
  simp only [] at h
  rw [show SpaceMetadataCacheState.getForRevalidation
    { SpaceMetadataCacheState.empty with misses := 1 } n = none from rfl] at h
  simp only [Option.none_bind, jsStr_none] at h
  rcases hR : respond (metadataRequest n hfToken none) with _ | ⟨info, etagH⟩ | status | _
  all_goals rw [hR] at h
  · simp at h
  · simp only [] at h
    rcases hS : jsStr info.subdomain with _ | subd
    all_goals rw [hS] at h
    · simp at h
    · simp only [] at h
      by_cases hcond : (!info.«private».getD false) = true
      · rw [if_pos hcond] at h
        simp only [] at h
        injection h with h1
        rw [← h1]
      · rw [if_neg hcond] at h
        simp only [] at h
        injection h with h1
        rw [← h1]
  · simp at h
  · simp at h

theorem chunksFuel_foldl {α β : Type} (c : Nat) (f : β → α → β) :
    ∀ (fuel : Nat) (l : List α) (init : β),
      (chunksFuel c fuel l).foldl (fun acc batch => batch.foldl f acc) init
        = l.foldl f init := by
  intro fuel
  induction fuel with
  | zero =>
    intro l init
    cases l with
    | nil => rfl
    | cons x xs => rfl
  | succ fuel ih =>
    intro l init
    cases l with
    | nil => rfl
    | cons x xs =>
      have h1 : chunksFuel c (fuel + 1) (x :: xs)
          = (x :: xs.take (c - 1)) :: chunksFuel c fuel (xs.drop (c - 1)) := rfl
      rw [h1]
      simp only [List.foldl_cons]
      rw [ih, ← List.foldl_append, List.take_append_drop]

theorem fetchSpaceMetadataWithCache_eq_foldl (spaceNames : List String)
    (hfToken : Option String) (includeRuntime : Bool)
    (respond : MetadataRequest → MetadataResponse) (now : Nat)
    (st : SpaceMetadataCacheState) :
    fetchSpaceMetadataWithCache spaceNames hfToken includeRuntime respond now st
      = spaceNames.foldl (metadataPhaseStep hfToken includeRuntime respond now)
          ([], st) := by
  unfold fetchSpaceMetadataWithCache chunks
  exact chunksFuel_foldl _ _ _ _ _

theorem fetchSchemasWithCache_eq_foldl (metadataList : List CachedSpaceMetadata)
    (hfToken : Option String) (schemaRespond : SchemaRequest → SchemaFetchResponse)
    (now : Nat) (st : SchemaCacheState) :
    fetchSchemasWithCache metadataList hfToken schemaRespond now st
      = metadataList.foldl (schemaPhaseStep hfToken schemaRespond now) ([], st) := by
  unfold fetchSchemasWithCache
  cases metadataList with
  | nil => rfl
  | cons m ms => rfl

theorem listSet_append_of_none {α : Type} (k : String) (v : α) :
    ∀ (l : List (String × α)), listGet k l = none → listSet k v l = l ++ [(k, v)] := by
  intro l
  induction l with
  | nil => intro _; rfl
  | cons hd tl ih =>
    obtain ⟨k2, v2⟩ := hd
    intro h
    simp only [listGet] at h
    by_cases hk : k2 = k
    · rw [if_pos hk] at h
      exact absurd h (by simp)
    · rw [if_neg hk] at h
      simp only [listSet, if_neg hk, List.cons_append]
      rw [ih h]

theorem listGet_append_none {α : Type} (k : String) :
    ∀ (l1 l2 : List (String × α)), listGet k l1 = none →
      listGet k (l1 ++ l2) = listGet k l2 := by
  intro l1
  induction l1 with
  | nil => intro l2 _; rfl
  | cons hd tl ih =>
    obtain ⟨k2, v2⟩ := hd
    intro l2 h
    simp only [listGet] at h
    by_cases hk : k2 = k
    · rw [if_pos hk] at h
      exact absurd h (by simp)
    · rw [if_neg hk] at h
      simp only [List.cons_append, listGet, if_neg hk]
      exact ih l2 h

/-- Per-space outcome of the metadata phase as a map entry. -/
def metaEntryOutcome (hfToken : Option String) (includeRuntime : Bool)
    (respond : MetadataRequest → MetadataResponse) (now : Nat) (n : String) :
    Option (String × CachedSpaceMetadata) :=
  (metaOutcome hfToken includeRuntime respond now n).map (fun m => (n, m))

theorem metaPhase_go (hfToken : Option String) (includeRuntime : Bool)
    (respond : MetadataRequest → MetadataResponse) (now : Nat) :
    ∀ (l : List String)
      (acc : List (String × CachedSpaceMetadata) × SpaceMetadataCacheState),
      l.Nodup →
      (∀ k ∈ l, listGet k acc.2.cache = none) →
      (∀ k ∈ l, listGet k acc.1 = none) →
      (l.foldl (metadataPhaseStep hfToken includeRuntime respond now) acc).1
        = acc.1 ++ l.filterMap (metaEntryOutcome hfToken includeRuntime respond now) := by
  intro l
  induction l with
  | nil => intro acc _ _ _; simp
  | cons n l2 ih =>
    intro acc hnd hcache hacc
    have hnd2 : l2.Nodup := (List.nodup_cons.mp hnd).2
    have hnmem : n ∉ l2 := (List.nodup_cons.mp hnd).1
    rw [List.foldl_cons]
    rcases hfull : fetchSpaceMetadata n hfToken includeRuntime respond now acc.2
      with ⟨r, q, st2⟩
    have hmiss : listGet n acc.2.cache = none := hcache n (List.mem_cons_self _ _)
    have hof := fetchSpaceMetadata_of_miss n hfToken includeRuntime respond now
      acc.2 hmiss
    have hr : r = (fetchSpaceMetadata n hfToken includeRuntime respond now
        SpaceMetadataCacheState.empty).1 := by
      rw [← hof.1, hfull]
    have hpres : ∀ k, k ≠ n → listGet k st2.cache = listGet k acc.2.cache := by
      intro k hk
      have h2 := hof.2 k hk
      rw [hfull] at h2
      exact h2
    cases r with
    | success m c =>
      have hm : metaOutcome hfToken includeRuntime respond now n = some m := by
        unfold metaOutcome
        rw [← hr]
      have hname : m.name = n :=
        metaOutcome_name hfToken includeRuntime respond now n m hm
      have hstep : metadataPhaseStep hfToken includeRuntime respond now acc n
          = (listSet m.name m acc.1, st2) := by
        unfold metadataPhaseStep
        rw [hfull]
      rw [hstep]
      have haccn : listGet n acc.1 = none := hacc n (List.mem_cons_self _ _)
      have hset : listSet m.name m acc.1 = acc.1 ++ [(n, m)] := by
        rw [hname]
        exact listSet_append_of_none n m acc.1 haccn
      rw [hset]
      rw [ih (acc.1 ++ [(n, m)], st2) hnd2
        (fun k hk => by
          show listGet k st2.cache = none
          rw [hpres k (fun he => hnmem (by rw [← he]; exact hk))]
          exact hcache k (List.mem_cons_of_mem _ hk))
        (fun k hk => by
          show listGet k (acc.1 ++ [(n, m)]) = none
          rw [listGet_append_none k acc.1 [(n, m)]
            (hacc k (List.mem_cons_of_mem _ hk))]
          simp only [listGet]
          exact if_neg (fun he => hnmem (by rw [he]; exact hk)))]
      have hgn : metaEntryOutcome hfToken includeRuntime respond now n = some (n, m) := by
        unfold metaEntryOutcome
        rw [hm]
        rfl
      rw [List.filterMap_cons_some hgn]
      simp
    | failure fn =>
      have hm : metaOutcome hfToken includeRuntime respond now n = none := by
        unfold metaOutcome
        rw [← hr]
      have hstep : metadataPhaseStep hfToken includeRuntime respond now acc n
          = (acc.1, st2) := by
        unfold metadataPhaseStep
        rw [hfull]
      rw [hstep]
      rw [ih (acc.1, st2) hnd2
        (fun k hk => by
          show listGet k st2.cache = none
          rw [hpres k (fun he => hnmem (by rw [← he]; exact hk))]
          exact hcache k (List.mem_cons_of_mem _ hk))
        (fun k hk => hacc k (List.mem_cons_of_mem _ hk))]
      have hgn : metaEntryOutcome hfToken includeRuntime respond now n = none := by
        unfold metaEntryOutcome
        rw [hm]
        rfl
      rw [List.filterMap_cons_none hgn]

/-- Per-space outcome of the schema phase as a map entry. -/
def schemaEntryOutcome (hfToken : Option String)
    (schemaRespond : SchemaRequest → SchemaFetchResponse) (now : Nat)
    (m : CachedSpaceMetadata) : Option (String × CachedSchema) :=
  (schemaOutcome hfToken schemaRespond now m).map (fun s => (m.name, s))

theorem schemaPhase_go (hfToken : Option String)
    (schemaRespond : SchemaRequest → SchemaFetchResponse) (now : Nat) :
    ∀ (l : List CachedSpaceMetadata)
      (acc : List (String × CachedSchema) × SchemaCacheState),
      (l.map (fun m => m.name)).Nodup →
      (∀ m ∈ l, listGet m.name acc.2.cache = none) →
      (∀ m ∈ l, listGet m.name acc.1 = none) →
      (l.foldl (schemaPhaseStep hfToken schemaRespond now) acc).1
        = acc.1 ++ l.filterMap (schemaEntryOutcome hfToken schemaRespond now) := by
  intro l
  induction l with
  | nil => intro acc _ _ _; simp
  | cons n l2 ih =>
    intro acc hnd hcache hacc
    have hnd2 : (l2.map (fun m => m.name)).Nodup := by
      rw [List.map_cons] at hnd
      exact (List.nodup_cons.mp hnd).2
    have hnmem : n.name ∉ l2.map (fun m => m.name) := by
      rw [List.map_cons] at hnd
      exact (List.nodup_cons.mp hnd).1
    rw [List.foldl_cons]
    rcases hfull : fetchSchema n hfToken schemaRespond now acc.2 with ⟨r, st2⟩
    have hmiss : listGet n.name acc.2.cache = none := hcache n (List.mem_cons_self _ _)
    have hof := fetchSchema_of_miss n hfToken schemaRespond now acc.2 hmiss
    have hr : r = (fetchSchema n hfToken schemaRespond now SchemaCacheState.empty).1 := by
      rw [← hof.1, hfull]
    have hpres : ∀ k, k ≠ n.name → listGet k st2.cache = listGet k acc.2.cache := by
      intro k hk
      have h2 := hof.2 k hk
      rw [hfull] at h2
      exact h2
    have hkne : ∀ m, m ∈ l2 → m.name ≠ n.name := by
      intro m hm he
      exact hnmem (he ▸ List.mem_map_of_mem (fun m => m.name) hm)
    cases r with
    | success sn sch c =>
      have hsn : sn = n.name :=
        fetchSchema_success_name n hfToken schemaRespond now
          SchemaCacheState.empty hr.symm
      have hm : schemaOutcome hfToken schemaRespond now n = some sch := by
        unfold schemaOutcome
        rw [← hr]
      have hstep : schemaPhaseStep hfToken schemaRespond now acc n
          = (listSet sn sch acc.1, st2) := by
        unfold schemaPhaseStep
        rw [hfull]
      rw [hstep]
      have haccn : listGet n.name acc.1 = none := hacc n (List.mem_cons_self _ _)
      have hset : listSet sn sch acc.1 = acc.1 ++ [(n.name, sch)] := by
        rw [hsn]
        exact listSet_append_of_none n.name sch acc.1 haccn
      rw [hset]
      rw [ih (acc.1 ++ [(n.name, sch)], st2) hnd2
        (fun m hm2 => by
          show listGet m.name st2.cache = none
          rw [hpres m.name (hkne m hm2)]
          exact hcache m (List.mem_cons_of_mem _ hm2))
        (fun m hm2 => by
          show listGet m.name (acc.1 ++ [(n.name, sch)]) = none
          rw [listGet_append_none m.name acc.1 [(n.name, sch)]
            (hacc m (List.mem_cons_of_mem _ hm2))]
          simp only [listGet]
          exact if_neg (fun he => hkne m hm2 he.symm))]
      have hgn : schemaEntryOutcome hfToken schemaRespond now n = some (n.name, sch) := by
        unfold schemaEntryOutcome
        rw [hm]
        rfl
      rw [List.filterMap_cons_some hgn]
      simp
    | failure fn =>
      have hm : schemaOutcome hfToken schemaRespond now n = none := by
        unfold schemaOutcome
        rw [← hr]
      have hstep : schemaPhaseStep hfToken schemaRespond now acc n = (acc.1, st2) := by
        unfold schemaPhaseStep
        rw [hfull]
      rw [hstep]
      rw [ih (acc.1, st2) hnd2
        (fun m hm2 => by
          show listGet m.name st2.cache = none
          rw [hpres m.name (hkne m hm2)]
          exact hcache m (List.mem_cons_of_mem _ hm2))
        (fun m hm2 => hacc m (List.mem_cons_of_mem _ hm2))]
      have hgn : schemaEntryOutcome hfToken schemaRespond now n = none := by
        unfold schemaEntryOutcome
        rw [hm]
        rfl
      rw [List.filterMap_cons_none hgn]

theorem listGet_filterMap_not_mem {β γ : Type} (key : β → String) (g : β → Option γ)
    (k : String) :
    ∀ (l : List β), k ∉ l.map key →
      listGet k (l.filterMap (fun b => (g b).map (fun v => (key b, v)))) = none := by
  intro l
  induction l with
  | nil => intro _; rfl
  | cons b l2 ih =>
    intro hk
    rw [List.map_cons, List.mem_cons] at hk
    push_neg at hk
    cases hg : g b with
    | none =>
      simp only [List.filterMap_cons, hg, Option.map_none']
      exact ih hk.2
    | some v =>
      simp only [List.filterMap_cons, hg, Option.map_some']
      simp only [listGet]
      rw [if_neg (fun he => hk.1 he.symm)]
      exact ih hk.2

theorem listGet_filterMap_keyed {β γ : Type} (key : β → String) (g : β → Option γ) :
    ∀ (l : List β), (l.map key).Nodup → ∀ m ∈ l,
      listGet (key m) (l.filterMap (fun b => (g b).map (fun v => (key b, v)))) = g m := by
  intro l
  induction l with
  | nil => intro _ m hm; simp at hm
  | cons b l2 ih =>
    intro hnd m hm
    rw [List.map_cons, List.nodup_cons] at hnd
    rcases List.mem_cons.mp hm with h1 | h1
    · subst h1
      cases hg : g m with
      | none =>
        simp only [List.filterMap_cons, hg, Option.map_none']
        exact listGet_filterMap_not_mem key g (key m) l2 hnd.1
      | some v =>
        simp only [List.filterMap_cons, hg, Option.map_some']
        simp [listGet]
    · have hkne : key b ≠ key m := by
        intro he
        exact hnd.1 (he ▸ List.mem_map_of_mem key h1)
      cases hg : g b with
      | none =>
        simp only [List.filterMap_cons, hg, Option.map_none']
        exact ih hnd.2 m h1
      | some v =>
        simp only [List.filterMap_cons, hg, Option.map_some']
        simp only [listGet]
        rw [if_neg hkne]
        exact ih hnd.2 m h1

theorem map_key_filterMap {γ : Type} (g : String → Option γ) (key : γ → String)
    (hkey : ∀ n v, g n = some v → key v = n) :
    ∀ l : List String, (l.filterMap g).map key = l.filter (fun n => (g n).isSome) := by
  intro l
  induction l with
  | nil => rfl
  | cons n l2 ih =>
    cases hg : g n with
    | none =>
      rw [List.filterMap_cons_none hg, List.filter_cons]
      rw [if_neg (by rw [hg]; simp)]
      exact ih
    | some v =>
      rw [List.filterMap_cons_some hg, List.filter_cons]
      rw [if_pos (by rw [hg]; simp)]
      rw [List.map_cons, ih, hkey n v hg]

theorem filterMap_congr_mem {β γ : Type} (f g : β → Option γ) :
    ∀ l : List β, (∀ b ∈ l, f b = g b) → l.filterMap f = l.filterMap g := by
  intro l
  induction l with
  | nil => intro _; rfl
  | cons b l2 ih =>
    intro h
    rw [List.filterMap_cons, List.filterMap_cons, h b (List.mem_cons_self _ _),
      ih (fun b2 hb2 => h b2 (List.mem_cons_of_mem _ hb2))]

/-- The record a single space contributes to discovery (with schemas required),
determined only by that space's own fetch outcomes against empty caches. -/
def spaceRecord (hfToken : Option String)
    (respond : MetadataRequest → MetadataResponse)
    (schemaRespond : SchemaRequest → SchemaFetchResponse) (now : Nat)
    (n : String) : Option GradioSpaceInfo :=
  match metaOutcome hfToken false respond now n with
  | none => none
  | some m =>
    if m.sdk == "gradio" && m.subdomain != "" then
      match schemaOutcome hfToken schemaRespond now m with
      | none => none
      | some sch =>
        some { idStr := m.idStr, name := m.name, subdomain := m.subdomain
               emoji := m.emoji, «private» := m.«private», sdk := m.sdk
               tools := sch.tools, runtime := m.runtime, cached := false }
    else none

theorem spaceRecord_isSome (hfToken : Option String)
    (respond : MetadataRequest → MetadataResponse)
    (schemaRespond : SchemaRequest → SchemaFetchResponse) (now : Nat) (n : String) :
    (spaceRecord hfToken respond schemaRespond now n).isSome
      = spaceSucceeds hfToken respond schemaRespond now n := by
  unfold spaceRecord spaceSucceeds
  cases hm : metaOutcome hfToken false respond now n with
  | none => rfl
  | some m =>
    simp only []
    by_cases hc : (m.sdk == "gradio" && m.subdomain != "") = true
    · rw [if_pos hc]
      cases hs : schemaOutcome hfToken schemaRespond now m with
      | none => simp [hs, hc]
      | some sch => simp [hs, hc]
    · rw [if_neg hc]
      simp only [Bool.not_eq_true] at hc
      simp [hc]

theorem spaceRecord_name (hfToken : Option String)
    (respond : MetadataRequest → MetadataResponse)
    (schemaRespond : SchemaRequest → SchemaFetchResponse) (now : Nat) (n : String)
    (r : GradioSpaceInfo)
    (h : spaceRecord hfToken respond schemaRespond now n = some r) :
    r.name = n := by
  unfold spaceRecord at h
  cases hm : metaOutcome hfToken false respond now n with
  | none =>
    rw [hm] at h
    simp at h
  | some m =>
    rw [hm] at h
    simp only [] at h
    by_cases hc : (m.sdk == "gradio" && m.subdomain != "") = true
    · rw [if_pos hc] at h
      cases hs : schemaOutcome hfToken schemaRespond now m with
      | none =>
        rw [hs] at h
        simp at h
      | some sch =>
        rw [hs] at h
        simp only [] at h
        injection h with h1
        rw [← h1]
        exact metaOutcome_name hfToken false respond now n m hm
    · rw [if_neg hc] at h
      simp at h

theorem metaPhase_empty (hfToken : Option String) (includeRuntime : Bool)
    (respond : MetadataRequest → MetadataResponse) (now : Nat)
    (spaceNames : List String) (hnodup : spaceNames.Nodup) :
    (fetchSpaceMetadataWithCache spaceNames hfToken includeRuntime respond now
        SpaceMetadataCacheState.empty).1
      = spaceNames.filterMap (metaEntryOutcome hfToken includeRuntime respond now) := by
  rw [fetchSpaceMetadataWithCache_eq_foldl]
  rw [metaPhase_go hfToken includeRuntime respond now spaceNames
    ([], SpaceMetadataCacheState.empty) hnodup (fun k _ => rfl) (fun k _ => rfl)]
  rfl

theorem schemaPhase_empty (hfToken : Option String)
    (schemaRespond : SchemaRequest → SchemaFetchResponse) (now : Nat)
    (l : List CachedSpaceMetadata) (hnd : (l.map (fun m => m.name)).Nodup) :
    (fetchSchemasWithCache l hfToken schemaRespond now SchemaCacheState.empty).1
      = l.filterMap (schemaEntryOutcome hfToken schemaRespond now) := by
  rw [fetchSchemasWithCache_eq_foldl]
  rw [schemaPhase_go hfToken schemaRespond now l ([], SchemaCacheState.empty)
    hnd (fun m _ => rfl) (fun m _ => rfl)]
  rfl

theorem combine_pointwise (hfToken : Option String)
    (respond : MetadataRequest → MetadataResponse)
    (schemaRespond : SchemaRequest → SchemaFetchResponse) (now : Nat)
    (spaceNames : List String) (smap : List (String × CachedSchema))
    (hlook : ∀ n2 m, n2 ∈ spaceNames →
      metaOutcome hfToken false respond now n2 = some m →
      listGet n2 smap
        = if m.sdk == "gradio" && m.subdomain != ""
          then schemaOutcome hfToken schemaRespond now m else none) :
    combineMetadataAndSchemas
        (spaceNames.filterMap (metaEntryOutcome hfToken false respond now)) smap false
      = spaceNames.filterMap (spaceRecord hfToken respond schemaRespond now) := by
  unfold combineMetadataAndSchemas
  rw [List.filterMap_filterMap]
  apply filterMap_congr_mem
  intro n2 hn2
  simp only []
  unfold metaEntryOutcome spaceRecord
  cases hmo : metaOutcome hfToken false respond now n2 with
  | none => rfl
  | some m =>
    simp only [Option.map_some', Option.some_bind]
    have hl := hlook n2 m hn2 hmo
    by_cases hc : (m.sdk == "gradio" && m.subdomain != "") = true
    · rw [if_pos hc] at hl ⊢
      rw [hl]
      cases hs : schemaOutcome hfToken schemaRespond now m with
      | none =>
        rw [if_pos (And.intro (by simp) rfl)]
      | some sch =>
        rw [if_neg (fun hand => Option.noConfusion hand.2)]
        rfl
    · rw [if_neg hc] at hl ⊢
      rw [hl]
      rw [if_pos (And.intro (by simp) rfl)]

/-- C6: per-space failure isolation in discovery.  With pairwise-distinct space
names and empty caches, the records returned by `getGradioSpaces` (schemas
required) are exactly the per-space records each space would produce on its own
against empty caches, in input order; equivalently the returned names are the
input names filtered by the per-space success predicate.  A failing space
(metadata HTTP/network error, missing subdomain, or schema parse/HTTP/network
failure) therefore only removes itself and never drops another space. -/
theorem C6_failure_isolation (spaceNames : List String) (hfToken : Option String)
    (respond : MetadataRequest → MetadataResponse)
    (schemaRespond : SchemaRequest → SchemaFetchResponse) (now : Nat)
    (hnodup : spaceNames.Nodup) :
    (getGradioSpaces spaceNames hfToken
        { skipSchemas := false, includeRuntime := false } respond schemaRespond now
        SpaceMetadataCacheState.empty SchemaCacheState.empty).1
      = spaceNames.filterMap (spaceRecord hfToken respond schemaRespond now)
    ∧ ((getGradioSpaces spaceNames hfToken
        { skipSchemas := false, includeRuntime := false } respond schemaRespond now
        SpaceMetadataCacheState.empty SchemaCacheState.empty).1).map
          (fun r => r.name)
      = spaceNames.filter (spaceSucceeds hfToken respond schemaRespond now) := by
  have hmain : (getGradioSpaces spaceNames hfToken
      { skipSchemas := false, includeRuntime := false } respond schemaRespond now
      SpaceMetadataCacheState.empty SchemaCacheState.empty).1
      = spaceNames.filterMap (spaceRecord hfToken respond schemaRespond now) := by
    by_cases hlen : spaceNames.length = 0
    · rw [List.length_eq_zero] at hlen
      subst hlen
      rfl
    · unfold getGradioSpaces
      rw [if_neg hlen]
      show combineMetadataAndSchemas
          (fetchSpaceMetadataWithCache spaceNames hfToken false respond now
            SpaceMetadataCacheState.empty).1
          (if !(false : Bool) && decide (0 <
              (((fetchSpaceMetadataWithCache spaceNames hfToken false respond now
                  SpaceMetadataCacheState.empty).1.map (fun p => p.2)).filter
                (fun m => m.sdk == "gradio" && m.subdomain != "")).length) then
            fetchSchemasWithCache
              (((fetchSpaceMetadataWithCache spaceNames hfToken false respond now
                  SpaceMetadataCacheState.empty).1.map (fun p => p.2)).filter
                (fun m => m.sdk == "gradio" && m.subdomain != ""))
              hfToken schemaRespond now SchemaCacheState.empty
          else ([], SchemaCacheState.empty)).1 false
        = spaceNames.filterMap (spaceRecord hfToken respond schemaRespond now)
      rw [metaPhase_empty hfToken false respond now spaceNames hnodup]
      set M := spaceNames.filterMap (metaEntryOutcome hfToken false respond now)
        with hM
      set G := (M.map (fun p => p.2)).filter
        (fun m => m.sdk == "gradio" && m.subdomain != "") with hG
      have hmemM : ∀ p ∈ M, p.1 = p.2.name
          ∧ metaOutcome hfToken false respond now p.1 = some p.2 := by
        intro p hp
        rw [hM] at hp
        rcases List.mem_filterMap.mp hp with ⟨n2, hn2, hgp⟩
        unfold metaEntryOutcome at hgp
        cases hmo : metaOutcome hfToken false respond now n2 with
        | none =>
          rw [hmo] at hgp
          simp at hgp
        | some m =>
          rw [hmo] at hgp
          simp only [Option.map_some'] at hgp
          injection hgp with h1
          rw [← h1]
          exact ⟨(metaOutcome_name hfToken false respond now n2 m hmo).symm, hmo⟩
      have hkeysM : M.map Prod.fst = spaceNames.filter
          (fun n => (metaEntryOutcome hfToken false respond now n).isSome) := by
        rw [hM]
        refine map_key_filterMap _ _ ?_ spaceNames
        intro n2 v hv
        unfold metaEntryOutcome at hv
        cases hmo : metaOutcome hfToken false respond now n2 with
        | none =>
          rw [hmo] at hv
          simp at hv
        | some m =>
          rw [hmo] at hv
          simp only [Option.map_some'] at hv
          injection hv with h1
          rw [← h1]
      have hndk : (M.map Prod.fst).Nodup := by
        rw [hkeysM]
        exact hnodup.filter _
      have hMvalnames : (M.map (fun p => p.2)).map (fun m => m.name)
          = M.map Prod.fst := by
        rw [List.map_map]
        apply List.map_congr_left
        intro p hp
        exact ((hmemM p hp).1).symm
      have hGsub : G.Sublist (M.map (fun p => p.2)) := by
        rw [hG]
        exact List.filter_sublist _
      have hndG : (G.map (fun m => m.name)).Nodup := by
        have h1 := hGsub.map (fun m => m.name)
        rw [hMvalnames] at h1
        exact hndk.sublist h1
      have hpMof : ∀ n2 m, n2 ∈ spaceNames →
          metaOutcome hfToken false respond now n2 = some m → (n2, m) ∈ M := by
        intro n2 m hn2 hmo
        rw [hM]
        refine List.mem_filterMap.mpr ⟨n2, hn2, ?_⟩
        unfold metaEntryOutcome
        rw [hmo]
        rfl
      have hmGof : ∀ n2 m, n2 ∈ spaceNames →
          metaOutcome hfToken false respond now n2 = some m →
          (m.sdk == "gradio" && m.subdomain != "") = true → m ∈ G := by
        intro n2 m hn2 hmo hc
        rw [hG]
        exact List.mem_filter.mpr ⟨List.mem_map.mpr ⟨(n2, m), hpMof n2 m hn2 hmo, rfl⟩, hc⟩
      by_cases hGl : 0 < G.length
      · have hlookfact : ∀ n2 m, n2 ∈ spaceNames →
            metaOutcome hfToken false respond now n2 = some m →
            listGet n2 (G.filterMap (schemaEntryOutcome hfToken schemaRespond now))
              = if m.sdk == "gradio" && m.subdomain != ""
                then schemaOutcome hfToken schemaRespond now m else none := by
          intro n2 m hn2 hmo
          have hname : m.name = n2 := metaOutcome_name hfToken false respond now n2 m hmo
          by_cases hc : (m.sdk == "gradio" && m.subdomain != "") = true
          · rw [if_pos hc]
            have h2 := listGet_filterMap_keyed (fun m2 => m2.name)
              (schemaOutcome hfToken schemaRespond now) G hndG m
              (hmGof n2 m hn2 hmo hc)
            have hfun : (fun b => (schemaOutcome hfToken schemaRespond now b).map
                (fun v => (b.name, v)))
                = schemaEntryOutcome hfToken schemaRespond now := rfl
            rw [hfun] at h2
            simp only [] at h2
            rw [hname] at h2
            exact h2
          · rw [if_neg hc]
            have hnotin : m.name ∉ G.map (fun m2 => m2.name) := by
              intro hmemname
              rcases List.mem_map.mp hmemname with ⟨q, hq, hqname⟩
              rw [hG] at hq
              have hq2 := List.mem_filter.mp hq
              rcases List.mem_map.mp hq2.1 with ⟨p2, hp2, hp2q⟩
              have heq : p2 = (n2, m) := by
                apply nodup_keys_unique hndk hp2 (hpMof n2 m hn2 hmo)
                rw [(hmemM p2 hp2).1, hp2q, hqname, hname]
              have hqm : q = m := by rw [← hp2q, heq]
              rw [hqm] at hq2
              exact hc hq2.2
            have h2 := listGet_filterMap_not_mem (fun m2 => m2.name)
              (schemaOutcome hfToken schemaRespond now) m.name G hnotin
            have hfun : (fun b => (schemaOutcome hfToken schemaRespond now b).map
                (fun v => (b.name, v)))
                = schemaEntryOutcome hfToken schemaRespond now := rfl
            rw [hfun] at h2
            rw [hname] at h2
            exact h2
        rw [if_pos (show (!(false : Bool) && decide (0 < G.length)) = true by
          simp [hGl])]
        rw [schemaPhase_empty hfToken schemaRespond now G hndG]
        rw [hM]
        exact combine_pointwise hfToken respond schemaRespond now spaceNames
          (G.filterMap (schemaEntryOutcome hfToken schemaRespond now)) hlookfact
      · have hGnil : G = [] := List.length_eq_zero.mp (Nat.eq_zero_of_not_pos hGl)
        have hlookfact : ∀ n2 m, n2 ∈ spaceNames →
            metaOutcome hfToken false respond now n2 = some m →
            listGet n2 ([] : List (String × CachedSchema))
              = if m.sdk == "gradio" && m.subdomain != ""
                then schemaOutcome hfToken schemaRespond now m else none := by
          intro n2 m hn2 hmo
          by_cases hc : (m.sdk == "gradio" && m.subdomain != "") = true
          · exfalso
            have hmG := hmGof n2 m hn2 hmo hc
            rw [hGnil] at hmG
            simp at hmG
          · rw [if_neg hc]
            rfl
        rw [if_neg (show ¬((!(false : Bool) && decide (0 < G.length)) = true) by
          simp [hGnil])]
        rw [hM]
        exact combine_pointwise hfToken respond schemaRespond now spaceNames
          ([] : List (String × CachedSchema)) hlookfact
  refine ⟨hmain, ?_⟩
  rw [hmain]
  rw [map_key_filterMap (spaceRecord hfToken respond schemaRespond now)
    (fun r => r.name)
    (fun n2 v hv => spaceRecord_name hfToken respond schemaRespond now n2 v hv)
    spaceNames]
  apply List.filter_congr
  intro n2 hn2
  exact spaceRecord_isSome hfToken respond schemaRespond now n2

def c6Respond : MetadataRequest → MetadataResponse := fun req =>
  if req.url = "https://huggingface.co/api/spaces/a/x" then
    .ok { idStr := none, id := "a/x", subdomain := some "x", «private» := some false
          sdk := some "gradio", runtime := none } none
  else .networkError

def c6SchemaRespond : SchemaRequest → SchemaFetchResponse := fun _ =>
  .ok [{ name := "infer", description := none }]

theorem C6_failure_isolation_witness :
    (["a/x", "b/y"] : List String).Nodup
    ∧ ((getGradioSpaces ["a/x", "b/y"] none
        { skipSchemas := false, includeRuntime := false } c6Respond c6SchemaRespond 0
        SpaceMetadataCacheState.empty SchemaCacheState.empty).1
      = (["a/x", "b/y"] : List String).filterMap
          (spaceRecord none c6Respond c6SchemaRespond 0)
    ∧ ((getGradioSpaces ["a/x", "b/y"] none
        { skipSchemas := false, includeRuntime := false } c6Respond c6SchemaRespond 0
        SpaceMetadataCacheState.empty SchemaCacheState.empty).1).map (fun r => r.name)
      = (["a/x", "b/y"] : List String).filter
          (spaceSucceeds none c6Respond c6SchemaRespond 0)) :=
  ⟨by decide, C6_failure_isolation ["a/x", "b/y"] none c6Respond c6SchemaRespond 0
    (by decide)⟩

/-- `SpaceTool` from shared/settings.ts (fields used by tool selection;
`_id` is `idStr`). -/
structure SpaceToolT where
  idStr : String
  name : String
  subdomain : String
  emoji : String
deriving DecidableEq

/-- `AppSettings` from shared/settings.ts (fields used by tool selection). -/
structure AppSettings where
  builtInTools : List String
  spaceTools : List SpaceToolT
deriving DecidableEq

/-- The external tool-id constants imported from the `@llmindset/hf-mcp`
package (not part of this repository): the embedding is parameterised over
them. -/
structure ToolIdGroups where
  hf_api : List String
  spaces : List String
  search : List String
  docs : List String
  allBuiltinToolIds : List String
  hubInspectToolId : String
  useSpaceToolId : String
  hfJobsToolId : String
  dynamicSpaceToolId : String
  spaceSearchToolId : String
  readmeIncludeFlag : String
  gradioImageFilterFlag : String
deriving DecidableEq

/-- `BOUQUETS` from shared/bouquet-presets.ts as a keyed lookup. -/
def BOUQUETS (g : ToolIdGroups) (k : String) : Option AppSettings :=
  if k = "hf_api" then some { builtInTools := g.hf_api, spaceTools := [] }
  else if k = "spaces" then some { builtInTools := g.spaces, spaceTools := [] }
  else if k = "search" then some { builtInTools := g.search, spaceTools := [] }
  else if k = "docs" then some { builtInTools := g.docs, spaceTools := [] }
  else if k = "all" then some { builtInTools := g.allBuiltinToolIds, spaceTools := [] }
  else if k = "hub_repo_details_readme" then
    some { builtInTools := [g.hubInspectToolId, g.readmeIncludeFlag], spaceTools := [] }
  else if k = "hub_repo_details" then
    some { builtInTools := [g.hubInspectToolId], spaceTools := [] }
  else if k = "no_gradio_images" then
    some { builtInTools := [g.gradioImageFilterFlag], spaceTools := [] }
  else if k = "mcp_ui" then some { builtInTools := [g.useSpaceToolId], spaceTools := [] }
  else if k = "jobs" then some { builtInTools := [g.hfJobsToolId], spaceTools := [] }
  else if k = "dynamic_space" then
    some { builtInTools := [g.spaceSearchToolId, g.dynamicSpaceToolId], spaceTools := [] }
  else none

/-- Modelled from the spec: `extractAuthBouquetAndMix` (auth-utils.ts is not in
the provided sources).  Per the spec's recognised-header table the bouquet, mix
and gradio values come from the x-mcp-bouquet, x-mcp-mix and x-mcp-gradio
request headers; a null header map yields no values (query-parameter promotion
happens upstream of this function). -/
def extractAuthBouquetAndMix (headers : Option (List (String × String))) :
    Option String × Option String × Option String :=
  match headers with
  | none => (none, none, none)
  | some hs =>
    (listGet "x-mcp-bouquet" hs, listGet "x-mcp-mix" hs, listGet "x-mcp-gradio" hs)

/-- Modelled from the spec: `normalizeBuiltInTools` (tool-normalizer.ts is not
in the provided sources).  The spec's selection rules return the preset and
mixed tool lists verbatim, and the repository's tests compare enabledToolIds
directly against raw preset lists and deduplicated mixed lists, so the
normaliser is the identity. -/
def normalizeBuiltInTools (ids : List String) : List String := ids

/-- `ToolSelectionMode` from tool-selection-strategy.ts. -/
inductive ToolSelectionMode where
  | bouquetOverride
  | mix
  | externalApi
  | internalApi
  | fallback
deriving DecidableEq

/-- `ToolSelectionContext` from tool-selection-strategy.ts. -/
structure ToolSelectionContext where
  headers : Option (List (String × String))
  userSettings : Option AppSettings
  hfToken : Option String
deriving DecidableEq

/-- `ToolSelectionResult` from tool-selection-strategy.ts. -/
structure ToolSelectionResult where
  mode : ToolSelectionMode
  enabledToolIds : List String
  reason : String
  baseSettings : Option AppSettings
  mixedBouquet : Option String
  gradioSpaceTools : Option (List SpaceToolT)
deriving DecidableEq

/-- The environment the strategy reads besides its context: the external
tool-id constants, the SEARCH_ENABLES_FETCH env flag, the transport's
externalApiMode flag, and what the API-client path of getUserSettings would
return (null in test environments or on fetch failure). -/
structure SelectionEnv where
  groups : ToolIdGroups
  searchEnablesFetch : Bool
  externalApiMode : Bool
  apiSettings : Option AppSettings

/-- JS `name.replace(/[/]/g, '-')`. -/
def jsReplaceSlashDash (s : String) : String :=
  ⟨s.data.map (fun c => if c = '/' then '-' else c)⟩

/-- `parseGradioEndpoints` from tool-selection-strategy.ts. -/
def parseGradioEndpoints (gradioParam : String) : List SpaceToolT :=
  (parseGradioSpaceIds gradioParam).map (fun space =>
    let placeholderSubdomain := jsReplaceSlashDash space.name
    { idStr := "gradio_metadata_" ++ placeholderSubdomain
      name := space.name
      subdomain := placeholderSubdomain
      emoji := "🔧" })

/-- `applySearchEnablesFetch` from tool-selection-strategy.ts (the
SEARCH_ENABLES_FETCH environment flag is a parameter). -/
def applySearchEnablesFetch (searchEnablesFetch : Bool)
    (enabledToolIds : List String) : List String :=
  if searchEnablesFetch then
    if enabledToolIds.contains "hf_doc_search"
        && !(enabledToolIds.contains "hf_doc_fetch") then
      enabledToolIds ++ ["hf_doc_fetch"]
    else enabledToolIds
  else enabledToolIds

/-- JS `[...new Set(l)]`: first occurrences in insertion order. -/
def jsSetDedupGo : List String → List String → List String
  | _, [] => []
  | seen, x :: xs =>
    if seen.contains x then jsSetDedupGo seen xs
    else x :: jsSetDedupGo (x :: seen) xs

def jsSetDedup (l : List String) : List String := jsSetDedupGo [] l

/-- `getUserSettings` from tool-selection-strategy.ts: provided settings win;
otherwise the API-client path (collapsed into the environment). -/
def getUserSettings (apiSettings : Option AppSettings)
    (context : ToolSelectionContext) : Option AppSettings :=
  match context.userSettings with
  | some u => some u
  | none => apiSettings

/-- Suffix appended to every reason string when gradio endpoints were parsed. -/
def gradioSuffix (gradioSpaceTools : List SpaceToolT) : String :=
  if 0 < gradioSpaceTools.length then
    " + " ++ Nat.repr gradioSpaceTools.length ++ " gradio endpoints"
  else ""

/-- `ToolSelectionStrategy.selectTools` from tool-selection-strategy.ts. -/
def selectTools (env : SelectionEnv) (context : ToolSelectionContext) :
    ToolSelectionResult :=
  let ebm := extractAuthBouquetAndMix context.headers
  let gradioSpaceTools := match jsStr ebm.2.2 with
    | some gp => parseGradioEndpoints gp
    | none => []
  match (jsStr ebm.1).bind
      (fun b => (BOUQUETS env.groups b).map (fun s => (b, s))) with
  | some (b, settings) =>
    { mode := .bouquetOverride
      enabledToolIds := normalizeBuiltInTools
        (applySearchEnablesFetch env.searchEnablesFetch settings.builtInTools)
      reason := "Bouquet override: " ++ b ++ gradioSuffix gradioSpaceTools
      baseSettings := none
      mixedBouquet := none
      gradioSpaceTools :=
        if 0 < gradioSpaceTools.length then some gradioSpaceTools else none }
  | none =>
    let baseSettings := getUserSettings env.apiSettings context
    match (jsStr ebm.2.1).bind
        (fun mx => (BOUQUETS env.groups mx).map (fun s => (mx, s))), baseSettings with
    | some (mx, mixSettings), some base =>
      let mixedTools := base.builtInTools ++ mixSettings.builtInTools
      { mode := .mix
        enabledToolIds := normalizeBuiltInTools
          (applySearchEnablesFetch env.searchEnablesFetch (jsSetDedup mixedTools))
        reason := "User settings + mix(" ++ mx ++ ")" ++ gradioSuffix gradioSpaceTools
        baseSettings := some base
        mixedBouquet := some mx
        gradioSpaceTools :=
          if 0 < gradioSpaceTools.length then some gradioSpaceTools else none }
    | _, _ =>
      match baseSettings with
      | some base =>
        { mode := if env.externalApiMode then .externalApi else .internalApi
          enabledToolIds := normalizeBuiltInTools
            (applySearchEnablesFetch env.searchEnablesFetch base.builtInTools)
          reason := (if env.externalApiMode then "External API user settings"
            else "Internal API user settings") ++ gradioSuffix gradioSpaceTools
          baseSettings := some base
          mixedBouquet := none
          gradioSpaceTools :=
            if 0 < gradioSpaceTools.length then some gradioSpaceTools else none }
      | none =>
        { mode := .fallback
          enabledToolIds := normalizeBuiltInTools
            (applySearchEnablesFetch env.searchEnablesFetch
              env.groups.allBuiltinToolIds)
          reason := "Fallback - no settings available" ++ gradioSuffix gradioSpaceTools
          baseSettings := none
          mixedBouquet := none
          gradioSpaceTools :=
            if 0 < gradioSpaceTools.length then some gradioSpaceTools else none }

/-- C2: bouquet override has highest precedence.  Whenever the extracted
bouquet header names a known preset (and SEARCH_ENABLES_FETCH is off, its
default), selectTools returns mode BOUQUET_OVERRIDE with enabledToolIds equal
to the preset's builtInTools verbatim, and the whole result is invariant under
every change of userSettings. -/
theorem C2_bouquet_override (env : SelectionEnv) (ctx : ToolSelectionContext)
    (b : String) (preset : AppSettings)
    (hsef : env.searchEnablesFetch = false)
    (hb : (extractAuthBouquetAndMix ctx.headers).1 = some b)
    (hbne : b ≠ "")
    (hpreset : BOUQUETS env.groups b = some preset) :
    (selectTools env ctx).mode = ToolSelectionMode.bouquetOverride
    ∧ (selectTools env ctx).enabledToolIds = preset.builtInTools
    ∧ ∀ us2, selectTools env { ctx with userSettings := us2 } = selectTools env ctx := by
  have key : ∀ c : ToolSelectionContext, c.headers = ctx.headers →
      selectTools env c
        = (let gst := match jsStr (extractAuthBouquetAndMix ctx.headers).2.2 with
            | some gp => parseGradioEndpoints gp
            | none => []
          { mode := .bouquetOverride
            enabledToolIds := normalizeBuiltInTools
              (applySearchEnablesFetch env.searchEnablesFetch preset.builtInTools)
            reason := "Bouquet override: " ++ b ++ gradioSuffix gst
            baseSettings := none
            mixedBouquet := none
            gradioSpaceTools := if 0 < gst.length then some gst else none }) := by
    intro c hc
    unfold selectTools
    rw [hc]
    simp only []
    rw [hb, jsStr_some_of_ne b hbne]
    simp only [Option.some_bind]
    rw [hpreset]
    simp only [Option.map_some']
  refine ⟨?_, ?_, ?_⟩
  · rw [key ctx rfl]
  · rw [key ctx rfl]
    show normalizeBuiltInTools
      (applySearchEnablesFetch env.searchEnablesFetch preset.builtInTools)
      = preset.builtInTools
    rw [hsef]
    rfl
  · intro us2
    rw [key { ctx with userSettings := us2 } rfl, key ctx rfl]

def selGroups : ToolIdGroups :=
  { hf_api := ["hf_whoami", "hf_model_search"]
    spaces := ["space_search"]
    search := ["hf_doc_search", "hf_doc_fetch"]
    docs := ["hf_doc_search", "hf_doc_fetch"]
    allBuiltinToolIds := ["hf_whoami", "hf_model_search", "space_search",
      "hf_doc_search", "hf_doc_fetch"]
    hubInspectToolId := "hub_repo_details"
    useSpaceToolId := "use_space"
    hfJobsToolId := "hf_jobs"
    dynamicSpaceToolId := "dynamic_space_tool"
    spaceSearchToolId := "space_search"
    readmeIncludeFlag := "readme_include"
    gradioImageFilterFlag := "no_image_content" }

def c2Env : SelectionEnv :=
  { groups := selGroups, searchEnablesFetch := false, externalApiMode := false
    apiSettings := none }

def c2Ctx : ToolSelectionContext :=
  { headers := some [("x-mcp-bouquet", "search")]
    userSettings := some { builtInTools := ["hf_whoami"], spaceTools := [] }
    hfToken := none }

theorem C2_bouquet_override_witness :
    c2Env.searchEnablesFetch = false
    ∧ (extractAuthBouquetAndMix c2Ctx.headers).1 = some "search"
    ∧ "search" ≠ ""
    ∧ BOUQUETS c2Env.groups "search"
        = some { builtInTools := ["hf_doc_search", "hf_doc_fetch"], spaceTools := [] }
    ∧ ((selectTools c2Env c2Ctx).mode = ToolSelectionMode.bouquetOverride
      ∧ (selectTools c2Env c2Ctx).enabledToolIds
          = ({ builtInTools := ["hf_doc_search", "hf_doc_fetch"],
               spaceTools := [] } : AppSettings).builtInTools
      ∧ ∀ us2, selectTools c2Env { c2Ctx with userSettings := us2 }
          = selectTools c2Env c2Ctx) :=
  ⟨rfl, by decide, by decide, by decide,
    C2_bouquet_override c2Env c2Ctx "search"
      { builtInTools := ["hf_doc_search", "hf_doc_fetch"], spaceTools := [] }
      rfl (by decide) (by decide) (by decide)⟩

def c3Env : SelectionEnv :=
  { groups := selGroups, searchEnablesFetch := false, externalApiMode := false
    apiSettings := none }

def c3CtxBoth : ToolSelectionContext :=
  { headers := some [("x-mcp-bouquet", "search"), ("x-mcp-mix", "hf_api")]
    userSettings := some { builtInTools := ["hf_whoami"], spaceTools := [] }
    hfToken := none }

/-- C3 counterexample: with both a valid bouquet header and a valid mix header
present, the mix value names the known preset hf_api and user settings are
available, yet enabledToolIds is the bouquet preset, not the deduplicated
user-then-preset concatenation the claim requires. -/
theorem C3_counterexample :
    (extractAuthBouquetAndMix c3CtxBoth.headers).2.1 = some "hf_api"
    ∧ BOUQUETS c3Env.groups "hf_api" ≠ none
    ∧ c3CtxBoth.userSettings
        = some { builtInTools := ["hf_whoami"], spaceTools := [] }
    ∧ ¬ ((selectTools c3Env c3CtxBoth).enabledToolIds
        = jsSetDedup (["hf_whoami"] ++ selGroups.hf_api)) := by
  decide

/-- C3 (amended): when no valid bouquet header is present, a valid mix header
with available user settings yields mode MIX and enabledToolIds equal to the
deduplicated concatenation of the user's builtInTools followed by the mix
preset's builtInTools (first occurrences kept, user tools first), with
SEARCH_ENABLES_FETCH off. -/
theorem C3_mix_additive (env : SelectionEnv) (ctx : ToolSelectionContext)
    (mx : String) (preset : AppSettings) (base : AppSettings)
    (hsef : env.searchEnablesFetch = false)
    (hnob : ∀ b2, jsStr (extractAuthBouquetAndMix ctx.headers).1 = some b2 →
      BOUQUETS env.groups b2 = none)
    (hmx : (extractAuthBouquetAndMix ctx.headers).2.1 = some mx)
    (hmxne : mx ≠ "")
    (hpreset : BOUQUETS env.groups mx = some preset)
    (hbase : getUserSettings env.apiSettings ctx = some base) :
    (selectTools env ctx).mode = ToolSelectionMode.mix
    ∧ (selectTools env ctx).enabledToolIds
      = jsSetDedup (base.builtInTools ++ preset.builtInTools) := by
  have hnob2 : (jsStr (extractAuthBouquetAndMix ctx.headers).1).bind
      (fun b => (BOUQUETS env.groups b).map (fun s => (b, s))) = none := by
    cases hjb : jsStr (extractAuthBouquetAndMix ctx.headers).1 with
    | none => rfl
    | some b2 =>
      simp only [Option.some_bind]
      rw [hnob b2 hjb]
      rfl
  have key : selectTools env ctx
      = (let gst := match jsStr (extractAuthBouquetAndMix ctx.headers).2.2 with
          | some gp => parseGradioEndpoints gp
          | none => []
        { mode := .mix
          enabledToolIds := normalizeBuiltInTools
            (applySearchEnablesFetch env.searchEnablesFetch
              (jsSetDedup (base.builtInTools ++ preset.builtInTools)))
          reason := "User settings + mix(" ++ mx ++ ")" ++ gradioSuffix gst
          baseSettings := some base
          mixedBouquet := some mx
          gradioSpaceTools := if 0 < gst.length then some gst else none }) := by
    unfold selectTools
    simp only []
    rw [hnob2]
    simp only []
    rw [hbase]
    rw [hmx, jsStr_some_of_ne mx hmxne]
    simp only [Option.some_bind]
    rw [hpreset]
    simp only [Option.map_some']
  refine ⟨?_, ?_⟩
  · rw [key]
  · rw [key]
    show normalizeBuiltInTools
      (applySearchEnablesFetch env.searchEnablesFetch
        (jsSetDedup (base.builtInTools ++ preset.builtInTools)))
      = jsSetDedup (base.builtInTools ++ preset.builtInTools)
    rw [hsef]
    rfl

def c3Ctx : ToolSelectionContext :=
  { headers := some [("x-mcp-mix", "hf_api")]
    userSettings := some { builtInTools := ["hf_whoami", "space_search"], spaceTools := [] }
    hfToken := none }

theorem C3_mix_additive_witness :
    c3Env.searchEnablesFetch = false
    ∧ (extractAuthBouquetAndMix c3Ctx.headers).2.1 = some "hf_api"
    ∧ "hf_api" ≠ ""
    ∧ BOUQUETS c3Env.groups "hf_api"
        = some { builtInTools := ["hf_whoami", "hf_model_search"], spaceTools := [] }
    ∧ getUserSettings c3Env.apiSettings c3Ctx
        = some { builtInTools := ["hf_whoami", "space_search"], spaceTools := [] }
    ∧ ((selectTools c3Env c3Ctx).mode = ToolSelectionMode.mix
      ∧ (selectTools c3Env c3Ctx).enabledToolIds
        = jsSetDedup ((["hf_whoami", "space_search"] : List String)
            ++ ["hf_whoami", "hf_model_search"])) :=
  ⟨rfl, by decide, by decide, by decide, by decide,
    C3_mix_additive c3Env c3Ctx "hf_api"
      { builtInTools := ["hf_whoami", "hf_model_search"], spaceTools := [] }
      { builtInTools := ["hf_whoami", "space_search"], spaceTools := [] }
      rfl (fun b2 h => Option.noConfusion h) (by decide) (by decide) (by decide)
      (by decide)⟩


end HfMcp
